import Mathlib

/-!
Verification development for the VRT_SCENARIO ingestion-and-classification
pipeline.  The Python services are shallowly embedded as Lean functions:
pure text processing becomes functions over `String` / `List Char`, database
state becomes explicit record passing, external HTTP / embedding / commit
effects become oracle functions supplied in an environment record, and
fallible operations return `Except Unit`.
-/

/-! ## Character-level text helpers

Python `str.strip`, `len`, `startswith`, `endswith` modelled over the
character list of the string (one `Char` per Unicode code point, matching
Python's `len`). -/

/-- Whitespace characters stripped by Python `str.strip()` (ASCII subset). -/
def isPySpace (c : Char) : Bool :=
  c = ' ' || c = '\t' || c = '\n' || c = '\r' || c = '\x0b' || c = '\x0c'

/-- `str.strip()`: drop whitespace from both ends. -/
def pyStripChars (cs : List Char) : List Char :=
  ((cs.dropWhile isPySpace).reverse.dropWhile isPySpace).reverse

/-- `str.strip()` on a `String`. -/
def pyStrip (s : String) : String :=
  String.mk (pyStripChars s.data)

/-- `part.startswith("【")`. -/
def startsWithLBracket (s : String) : Bool :=
  s.data.head? = some '【'

/-- `part.endswith("】")`. -/
def endsWithRBracket (s : String) : Bool :=
  s.data.getLast? = some '】'

/-! ## TextChunker: `SemanticSearchService.split_comment_into_chunks`

`re.split(r'(【[^】]+】)', comment_text)` is embedded as a one-pass scanner.
A delimiter is `【`, one or more non-`】` characters, then `】`; because the
regex scans left to right and `[^】]+` cannot cross a `】`, a `【` matches
exactly when the first `】` strictly after it is not immediately adjacent,
and the match runs to that `】`.  The scanner keeps the current plain-text
buffer (`buf`, reversed) and, once a `【` is seen, the pending delimiter
body (`pend`, reversed). -/

/-- Scanner for `re.split(r'(【[^】]+】)', ·)`; emits parts (plain text and
delimiters) in order, exactly as Python's `re.split` with a capture group. -/
def reSplitGo : List Char → List Char → Option (List Char) → List String
  | [], buf, none => [String.mk buf.reverse]
  | [], buf, some pend => [String.mk (buf.reverse ++ '【' :: pend.reverse)]
  | c :: rest, buf, none =>
    if c = '【' then reSplitGo rest buf (some [])
    else reSplitGo rest (c :: buf) none
  | c :: rest, buf, some pend =>
    if c = '】' then
      if pend.isEmpty then reSplitGo rest ('】' :: '【' :: buf) none
      else
        String.mk buf.reverse ::
          String.mk ('【' :: pend.reverse ++ ['】']) :: reSplitGo rest [] none
    else reSplitGo rest buf (some (c :: pend))

/-- `re.split(r'(【[^】]+】)', comment_text)`. -/
def reSplitSections (comment_text : String) : List String :=
  reSplitGo comment_text.data [] none

/-- One output chunk: `{"source_section": ..., "chunk_text": ...}`. -/
structure CommentChunk where
  source_section : String
  chunk_text : String
deriving DecidableEq

/-- Body of the section loop of `split_comment_into_chunks`: strip the
part, skip it when blank, take a `【...】` part as the new section title,
and append the part as a chunk only when its length is strictly greater
than 5. -/
def chunkStep (st : String × List CommentChunk) (part : String) :
    String × List CommentChunk :=
  let part := pyStrip part
  if part = "" then st
  else if startsWithLBracket part && endsWithRBracket part then
    (part, st.2)
  else if 5 < part.length then
    (st.1, st.2 ++ [⟨st.1, part⟩])
  else st

/-- `SemanticSearchService.split_comment_into_chunks`: walk the regex parts,
tracking the current section title (default `"评论开头"`). -/
def split_comment_into_chunks (comment_text : String) : List CommentChunk :=
  ((reSplitSections comment_text).foldl chunkStep ("评论开头", [])).2

/-- The keep-condition `split_comment_into_chunks` applies to a stripped
part: not a `【...】` section header and strictly longer than 5 characters
(blank parts fail the length test). -/
def chunkKeep (part : String) : Bool :=
  !(startsWithLBracket part && endsWithRBracket part) && decide (5 < part.length)

/-! ## SemanticClassifier: `SemanticSearchService.process_comment_chunks`

The external vector-similarity engine (`similarity_search_with_score` with
`k=1`) and the embedding model (`embed_query`) are black-box collaborators,
supplied as oracle functions.  Distance scores are modelled as rationals;
a search call may raise (network failure), encoded as `Except`. -/

/-- The metadata of a matched `ProductFeature` document, as built by
`_load_product_features_from_db`. -/
structure FeatureDoc where
  product_feature_id : Nat
  feature_code : String
  feature_name : String
deriving DecidableEq

/-- The `feature_search_details` blob of one accepted match. -/
structure SearchDetails where
  source_section : String
  matched_feature_code : String
  matched_feature_name : String
  similarity_score : ℚ
  search_query_preview : String
deriving DecidableEq

/-- One processing-result record (`result` dict in `process_comment_chunks`). -/
structure ProcessingResult where
  raw_comment_id : Nat
  product_feature_id : Nat
  feature_similarity_score : ℚ
  comment_chunk_text : String
  comment_chunk_vector : List ℚ
  feature_search_details : SearchDetails
deriving DecidableEq

/-- Oracles for the external embedding / similarity engine plus the
configured `SEMANTIC_SIMILARITY_THRESHOLD`. -/
structure SemanticEnv where
  search : String → Except Unit (Option (FeatureDoc × ℚ))
  embed_query : String → List ℚ
  similarity_threshold : ℚ

/-- `chunk_text[:100] + "..." if len(chunk_text) > 100 else chunk_text`. -/
def queryPreview (chunk_text : String) : String :=
  if 100 < chunk_text.length then String.mk (chunk_text.data.take 100) ++ "..."
  else chunk_text

/-- The result record built for an accepted chunk, field for field as in
`process_comment_chunks`. -/
def mkProcessingResult (env : SemanticEnv) (raw_comment_id : Nat)
    (chunk : CommentChunk) (doc : FeatureDoc) (score : ℚ) : ProcessingResult :=
  { raw_comment_id := raw_comment_id
    product_feature_id := doc.product_feature_id
    feature_similarity_score := score
    comment_chunk_text := chunk.chunk_text
    comment_chunk_vector := env.embed_query chunk.chunk_text
    feature_search_details :=
      { source_section := chunk.source_section
        matched_feature_code := doc.feature_code
        matched_feature_name := doc.feature_name
        similarity_score := score
        search_query_preview := queryPreview chunk.chunk_text } }

/-- Body of the chunk loop of `process_comment_chunks`: search with `k=1`;
no candidate is a miss; a candidate is accepted exactly when
`score < settings.SEMANTIC_SIMILARITY_THRESHOLD`. -/
def classifyChunk (env : SemanticEnv) (raw_comment_id : Nat)
    (chunk : CommentChunk) : Option ProcessingResult :=
  match env.search chunk.chunk_text with
  | .ok (some (doc, score)) =>
    if score < env.similarity_threshold then
      some (mkProcessingResult env raw_comment_id chunk doc score)
    else none
  | _ => none

/-- The chunk loop of `process_comment_chunks`: a raised search error
aborts the whole call; otherwise accepted results accumulate in order. -/
def processChunksGo (env : SemanticEnv) (raw_comment_id : Nat) :
    List CommentChunk → List ProcessingResult → Except Unit (List ProcessingResult)
  | [], results => .ok results
  | chunk :: rest, results =>
    match env.search chunk.chunk_text with
    | .error e => .error e
    | .ok none => processChunksGo env raw_comment_id rest results
    | .ok (some (doc, score)) =>
      if score < env.similarity_threshold then
        processChunksGo env raw_comment_id rest
          (results ++ [mkProcessingResult env raw_comment_id chunk doc score])
      else processChunksGo env raw_comment_id rest results

/-- `SemanticSearchService.process_comment_chunks`. -/
def process_comment_chunks (env : SemanticEnv) (raw_comment_id : Nat)
    (comment_text : String) : Except Unit (List ProcessingResult) :=
  processChunksGo env raw_comment_id (split_comment_into_chunks comment_text) []

/-! ## Data model rows and the relational store -/

/-- `ProcessingStatus` enum on `RawComment`. -/
inductive ProcessingStatus
  | new
  | processing
  | completed
  | failed
  | skipped
deriving DecidableEq

/-- One `raw_comments` row. -/
structure RawCommentRow where
  raw_comment_id : Nat
  vehicle_channel_id_fk : Nat
  identifier_on_channel : String
  comment_content : String
  posted_at_on_channel : Option String
  comment_source_url : String
  processing_status : ProcessingStatus
deriving DecidableEq

/-- One persisted `processed_comments` row (`ProcessedComment`): the result
record plus the `job_id_fk` stamped at save time. -/
structure StoredProcessedComment where
  job_id_fk : Option Nat
  result : ProcessingResult
deriving DecidableEq

/-- The slice of the relational store used by comment processing. -/
structure ProcessingDB where
  comments : List RawCommentRow
  processed_comments : List StoredProcessedComment
deriving DecidableEq

/-- `SemanticSearchService.update_comment_status`: single-row update guarded
by the primary key; a missing row is left alone (logged only). -/
def update_comment_status (db : ProcessingDB) (raw_comment_id : Nat)
    (status : ProcessingStatus) : ProcessingDB :=
  { db with
    comments := db.comments.map (fun r =>
      if r.raw_comment_id = raw_comment_id then { r with processing_status := status }
      else r) }

/-- `SemanticSearchService.get_pending_comments`: all comments currently in
`NEW`, up to `limit`, in storage order. -/
def get_pending_comments (db : ProcessingDB) (limit : Nat) : List RawCommentRow :=
  (db.comments.filter (fun r => r.processing_status = ProcessingStatus.new)).take limit

/-! ## CommentProcessingOrchestrator: `CommentProcessingService` -/

/-- Semantic oracles plus the outcome of the database commit performed by
`save_processed_comments` (the external store may fail any given commit). -/
structure ProcessingEnv where
  semantic : SemanticEnv
  save_commit_ok : List ProcessingResult → Bool

/-- `CommentProcessingService.save_processed_comments`: append one
`ProcessedComment` row per result and commit once; a failed commit persists
nothing and the error is re-raised. -/
def save_processed_comments (env : ProcessingEnv) (db : ProcessingDB)
    (processing_results : List ProcessingResult) (job_id : Option Nat) :
    ProcessingDB × Except Unit Nat :=
  if processing_results.isEmpty then (db, .ok 0)
  else if env.save_commit_ok processing_results then
    ({ db with
       processed_comments :=
         db.processed_comments ++ processing_results.map (fun r => ⟨job_id, r⟩) },
     .ok processing_results.length)
  else (db, .error ())

/-- `CommentProcessingService.process_single_comment`: set `PROCESSING`,
classify the chunks, then either persist the results and set `COMPLETED`,
set `SKIPPED` on zero accepted chunks, or set `FAILED` and re-raise on any
exception. -/
def process_single_comment (env : ProcessingEnv) (db : ProcessingDB)
    (raw_comment : RawCommentRow) (job_id : Option Nat) :
    ProcessingDB × Except Unit (List ProcessingResult) :=
  let db1 := update_comment_status db raw_comment.raw_comment_id .processing
  match process_comment_chunks env.semantic raw_comment.raw_comment_id
      raw_comment.comment_content with
  | .error _ =>
    (update_comment_status db1 raw_comment.raw_comment_id .failed, .error ())
  | .ok results =>
    if results.isEmpty then
      (update_comment_status db1 raw_comment.raw_comment_id .skipped, .ok results)
    else
      match save_processed_comments env db1 results job_id with
      | (db2, .ok _) =>
        (update_comment_status db2 raw_comment.raw_comment_id .completed, .ok results)
      | (db2, .error _) =>
        (update_comment_status db2 raw_comment.raw_comment_id .failed, .error ())

/-- Statistics dictionary returned by `process_batch_comments`. -/
structure BatchSummary where
  total_comments : Nat
  processed_count : Nat
  failed_count : Nat
  skipped_count : Nat
  total_results : Nat
deriving DecidableEq

/-- The per-comment loop of `process_batch_comments`: a comment whose
processing raises is counted failed and the loop continues; the counters are
(processed, failed, skipped, total_results). -/
def processBatchGo (env : ProcessingEnv) (job_id : Option Nat) :
    List RawCommentRow → ProcessingDB → Nat × Nat × Nat × Nat →
    ProcessingDB × (Nat × Nat × Nat × Nat)
  | [], db, counters => (db, counters)
  | comment :: rest, db, (p, f, s, t) =>
    match process_single_comment env db comment job_id with
    | (db', .ok results) =>
      if results.isEmpty then processBatchGo env job_id rest db' (p, f, s + 1, t)
      else processBatchGo env job_id rest db' (p + 1, f, s, t + results.length)
    | (db', .error _) => processBatchGo env job_id rest db' (p, f + 1, s, t)

/-- `CommentProcessingService.process_batch_comments`. -/
def process_batch_comments (env : ProcessingEnv) (db : ProcessingDB)
    (limit : Nat) (job_id : Option Nat) : ProcessingDB × BatchSummary :=
  let pending := get_pending_comments db limit
  if pending.isEmpty then (db, ⟨0, 0, 0, 0, 0⟩)
  else
    let res := processBatchGo env job_id pending db (0, 0, 0, 0)
    (res.1, ⟨pending.length, res.2.1, res.2.2.1, res.2.2.2.1, res.2.2.2.2⟩)

/-- Status of a comment row, looked up by primary key. -/
def statusOf (db : ProcessingDB) (raw_comment_id : Nat) : Option ProcessingStatus :=
  (db.comments.find? (fun r => r.raw_comment_id = raw_comment_id)).map
    (·.processing_status)

/-- Number of persisted `ProcessedComment` rows owned by a raw comment. -/
def resultRowsFor (db : ProcessingDB) (raw_comment_id : Nat) : Nat :=
  (db.processed_comments.filter
    (fun r => r.result.raw_comment_id = raw_comment_id)).length

/-! ## PaginatedFetcher: `RawCommentUpdateServiceSync._collect_new_comments`

The upstream paginated listing and the per-item detail endpoint are external
collaborators, modelled as oracles.  A page fetch either raises (network /
HTTP / parse failure, all of which the code catches and skips) or returns
the item list of that page. -/

/-- One item of a listing page, with the candidate identifier fields probed
by `_collect_new_comments` (each `comment.get(..., "")`) and the coarse
`posttime` metadata. -/
structure UpstreamComment where
  id : String
  Koubeiid : String
  koubeiId : String
  alibiId : String
  commentId : String
  uuid : String
  posttime : String
deriving DecidableEq

/-- `str(comment.get("id","") or comment.get("Koubeiid","") or ... or "")`:
the first non-empty candidate identifier, else `""`. -/
def extract_comment_id (c : UpstreamComment) : String :=
  if c.id ≠ "" then c.id
  else if c.Koubeiid ≠ "" then c.Koubeiid
  else if c.koubeiId ≠ "" then c.koubeiId
  else if c.alibiId ≠ "" then c.alibiId
  else if c.commentId ≠ "" then c.commentId
  else if c.uuid ≠ "" then c.uuid
  else ""

/-- Digit-pattern check standing in for `datetime.strptime` format matching
(`D` = decimal digit, any other pattern character is a literal). -/
def matchesTimePattern : List Char → List Char → Bool
  | [], [] => true
  | 'D' :: ps, c :: cs => c.isDigit && matchesTimePattern ps cs
  | p :: ps, c :: cs => p = c && matchesTimePattern ps cs
  | _, _ => false

/-- `RawCommentUpdateServiceSync._parse_post_time`: blank input gives
`None`; a 10-character string is parsed as `%Y-%m-%d`, anything else as
`%Y-%m-%d %H:%M:%S`; a parse failure gives `None`. -/
def parse_post_time (post_time_str : String) : Option String :=
  if pyStrip post_time_str = "" then none
  else if post_time_str.length = 10 then
    if matchesTimePattern "DDDD-DD-DD".data post_time_str.data then some post_time_str
    else none
  else if matchesTimePattern "DDDD-DD-DD DD:DD:DD".data post_time_str.data then
    some post_time_str
  else none

/-- One draft record accumulated by `_collect_new_comments` (body text and
source URL are filled in by the later detail-scraping step). -/
structure NewCommentDraft where
  identifier_on_channel : String
  comment_content : String
  posted_at_on_channel : Option String
  comment_source_url : String
deriving DecidableEq

/-- External collaborators of one crawl run: the listing page fetch, the
detail fetch (`.ok none` = response JSON without `result.content`,
`.error` = network/HTTP failure), and the formatted detail URL. -/
structure CrawlEnv where
  page_fetch : Nat → Except Unit (List UpstreamComment)
  detail_fetch : String → Except Unit (Option String)
  detail_url : String → String

/-- Inner item loop of `_collect_new_comments`: skip an item with no
identifier, skip an identifier already stored (`existing_identifiers`) or
already seen this run (`seen_identifiers`), accumulate the rest as drafts
with empty body text. -/
def collectItems (existing : List String) :
    List UpstreamComment → List NewCommentDraft → List String →
    List NewCommentDraft × List String
  | [], acc, seen => (acc, seen)
  | c :: rest, acc, seen =>
    let comment_id := extract_comment_id c
    if comment_id = "" then collectItems existing rest acc seen
    else if comment_id ∈ existing ∨ comment_id ∈ seen then
      collectItems existing rest acc seen
    else
      collectItems existing rest
        (acc ++ [{ identifier_on_channel := comment_id
                   comment_content := ""
                   posted_at_on_channel := parse_post_time c.posttime
                   comment_source_url := "" }])
        (seen ++ [comment_id])

/-- Page loop of `_collect_new_comments`: a page whose fetch raises is
logged and skipped (`continue`); a page with zero items ends the run
(`break`); otherwise its items are folded into the accumulators. -/
def collectPages (env : CrawlEnv) (existing : List String) :
    List Nat → List NewCommentDraft → List String →
    List NewCommentDraft × List String
  | [], acc, seen => (acc, seen)
  | page :: rest, acc, seen =>
    match env.page_fetch page with
    | .error _ => collectPages env existing rest acc seen
    | .ok comments =>
      if comments.isEmpty then (acc, seen)
      else
        let st := collectItems existing comments acc seen
        collectPages env existing rest st.1 st.2

/-- `RawCommentUpdateServiceSync._collect_new_comments` over pages
`1 .. max_pages`, given the existing-identifier set of the vehicle. -/
def collect_new_comments (env : CrawlEnv) (existing : List String)
    (max_pages : Nat) : List NewCommentDraft :=
  (collectPages env existing (List.range' 1 max_pages) [] []).1

/-- The item identifiers the page loop walks past, independent of the
dedup sets (same `continue` / `break` structure as `collectPages`). -/
def reachedIds (env : CrawlEnv) : List Nat → List String
  | [] => []
  | page :: rest =>
    match env.page_fetch page with
    | .error _ => reachedIds env rest
    | .ok comments =>
      if comments.isEmpty then []
      else comments.map extract_comment_id ++ reachedIds env rest

/-! ## Detail scraping: `_scrape_comments_contents` -/

/-- `RawCommentUpdateServiceSync._scrape_single_comment_content`: HTTP or
request errors and malformed JSON give `""`; otherwise the stripped
`result.content`, or `""` when blank. -/
def scrape_single_comment_content (env : CrawlEnv) (koubei_id : String) : String :=
  match env.detail_fetch koubei_id with
  | .error _ => ""
  | .ok none => ""
  | .ok (some content) =>
    if pyStrip content = "" then "" else pyStrip content

/-- `RawCommentUpdateServiceSync._scrape_comments_contents`: with no detail
URL template the drafts are returned untouched; otherwise every draft gets
its body text from the detail lookup (empty on failure) and its source URL,
and no draft is discarded. -/
def scrape_comments_contents (env : CrawlEnv) (has_detail_template : Bool)
    (new_comments : List NewCommentDraft) : List NewCommentDraft :=
  if !has_detail_template then new_comments
  else
    new_comments.map (fun cd =>
      { cd with
        comment_content := scrape_single_comment_content env cd.identifier_on_channel
        comment_source_url := env.detail_url cd.identifier_on_channel })

/-! ## CommentStore: `RawCommentUpdateServiceSync._save_new_comments` -/

/-- The slice of the store used by the crawl-save step; `next_id` models the
auto-increment primary key. -/
structure CommentStoreDB where
  comments : List RawCommentRow
  next_id : Nat
deriving DecidableEq

/-- The rows built from a draft batch, with sequential primary keys and
`processing_status = NEW`. -/
def draftRows (vehicle_channel_id : Nat) (base : Nat) :
    List NewCommentDraft → List RawCommentRow
  | [] => []
  | d :: ds =>
    { raw_comment_id := base
      vehicle_channel_id_fk := vehicle_channel_id
      identifier_on_channel := d.identifier_on_channel
      comment_content := d.comment_content
      posted_at_on_channel := d.posted_at_on_channel
      comment_source_url := d.comment_source_url
      processing_status := .new } :: draftRows vehicle_channel_id (base + 1) ds

/-- `RawCommentUpdateServiceSync._save_new_comments`: add every draft as a
`NEW` row and commit once; on failure roll the whole batch back (store
unchanged) and re-raise; returns the count saved. -/
def save_new_comments (db : CommentStoreDB) (new_comments : List NewCommentDraft)
    (vehicle_channel_id : Nat) (commit_ok : Bool) :
    CommentStoreDB × Except Unit Nat :=
  if new_comments.isEmpty then (db, .ok 0)
  else if commit_ok then
    ({ comments := db.comments ++ draftRows vehicle_channel_id db.next_id new_comments
       next_id := db.next_id + new_comments.length },
     .ok new_comments.length)
  else (db, .error ())

/-! ## CrawlScheduler: vehicle selection in `scheduled_comment_crawl` -/

/-- One `vehicle_channel_details` row (the fields the scheduler reads). -/
structure VehicleChannelRow where
  vehicle_channel_id : Nat
  channel_id_fk : Nat
  identifier_on_channel : String
  last_comment_crawled_at : Option Nat
deriving DecidableEq

/-- Sort key for `ORDER BY last_comment_crawled_at ASC` (only applied to
rows whose timestamp is non-null). -/
def crawlTimeOf (v : VehicleChannelRow) : Nat :=
  v.last_comment_crawled_at.getD 0

/-- The `ORDER BY last_comment_crawled_at ASC` comparison. -/
def crawlLE (a b : VehicleChannelRow) : Prop :=
  crawlTimeOf a ≤ crawlTimeOf b

instance : DecidableRel crawlLE := fun a b => Nat.decLe (crawlTimeOf a) (crawlTimeOf b)

instance : IsTotal VehicleChannelRow crawlLE :=
  ⟨fun a b => Nat.le_total (crawlTimeOf a) (crawlTimeOf b)⟩

instance : IsTrans VehicleChannelRow crawlLE :=
  ⟨fun _ _ _ h1 h2 => Nat.le_trans h1 h2⟩

/-- The crawl-target selection of `scheduled_comment_crawl`: up to
`max_vehicles` never-crawled vehicles (storage order), topped up with the
previously-crawled vehicles holding the oldest `last_comment_crawled_at`,
ascending. -/
def select_crawl_targets (registry : List VehicleChannelRow)
    (max_vehicles : Nat) : List VehicleChannelRow :=
  let uncrawled :=
    (registry.filter (fun v => v.last_comment_crawled_at.isNone)).take max_vehicles
  let vehicles :=
    if uncrawled.length < max_vehicles then
      let remaining := max_vehicles - uncrawled.length
      let oldest :=
        (List.insertionSort crawlLE
          (registry.filter (fun v => v.last_comment_crawled_at.isSome))).take remaining
      uncrawled ++ oldest
    else uncrawled
  vehicles.take max_vehicles

/-! ## JobLedger: `ProcessingJob` creation in the crawl tasks -/

/-- One `processing_jobs` row (the fields job creation touches; the Celery
task id embedded in `parameters` is the correlation id). -/
structure ProcessingJobRow where
  job_id : Nat
  job_type : String
  celery_task_id : String
  status : String
deriving DecidableEq

/-- The job-ledger table plus the auto-increment primary key. -/
structure JobLedgerDB where
  jobs : List ProcessingJobRow
  next_id : Nat
deriving DecidableEq

/-- The correlation lookup of `scheduled_comment_crawl`: same `job_type`
and same `celery_task_id` embedded in the parameters. -/
def scheduled_job_matches (celery_task_id : String) (j : ProcessingJobRow) : Bool :=
  j.job_type = "scheduled_comment_crawl" && j.celery_task_id = celery_task_id

/-- The fresh `running` row `scheduled_comment_crawl` inserts when the
correlation lookup finds nothing. -/
def new_scheduled_job_row (db : JobLedgerDB) (celery_task_id : String) :
    ProcessingJobRow :=
  { job_id := db.next_id
    job_type := "scheduled_comment_crawl"
    celery_task_id := celery_task_id
    status := "running" }

/-- Job creation in `scheduled_comment_crawl`: look up an existing row with
the same `job_type` and the same `celery_task_id` embedded in the
parameters; reuse it when found, otherwise insert a fresh `running` row. -/
def scheduled_begin_job (db : JobLedgerDB) (celery_task_id : String) :
    JobLedgerDB × Nat :=
  match db.jobs.find? (scheduled_job_matches celery_task_id) with
  | some existing_job => (db, existing_job.job_id)
  | none =>
    ({ jobs := db.jobs ++ [new_scheduled_job_row db celery_task_id]
       next_id := db.next_id + 1 },
     db.next_id)

/-- Job creation in `manual_comment_crawl`: a fresh `running` row is
inserted unconditionally — there is no correlation lookup. -/
def manual_begin_job (db : JobLedgerDB) (celery_task_id : String) :
    JobLedgerDB × Nat :=
  ({ jobs := db.jobs ++
       [{ job_id := db.next_id
          job_type := "manual_comment_crawl"
          celery_task_id := celery_task_id
          status := "running" }]
     next_id := db.next_id + 1 },
   db.next_id)

/-! ## Concrete fixtures used by witness theorems -/

/-- A concrete taxonomy document. -/
def featA : FeatureDoc :=
  { product_feature_id := 1, feature_code := "F001", feature_name := "空间" }

/-- A concrete semantic environment: threshold 10, one feature; the chunk
`"空间非常大我很满意"` matches at distance 3, anything else at distance 10
(exactly the threshold). -/
def testSemanticEnv : SemanticEnv :=
  { search := fun s =>
      if s = "空间非常大我很满意" then .ok (some (featA, 3)) else .ok (some (featA, 10))
    embed_query := fun _ => [1, 0]
    similarity_threshold := 10 }

/-- Concrete drafts for the comment-store witnesses. -/
def testDraft1 : NewCommentDraft :=
  { identifier_on_channel := "k100"
    comment_content := "空间很大"
    posted_at_on_channel := some "2025-07-22"
    comment_source_url := "u100" }

/-- A second concrete draft. -/
def testDraft2 : NewCommentDraft :=
  { identifier_on_channel := "k200"
    comment_content := ""
    posted_at_on_channel := none
    comment_source_url := "u200" }

/-- A concrete crawl environment for the detail-scraping witnesses:
`"k100"` has content, `"k200"` fails with a network error, anything else
returns malformed JSON. -/
def testCrawlEnv : CrawlEnv :=
  { page_fetch := fun _ => .ok []
    detail_fetch := fun koubei_id =>
      if koubei_id = "k100" then .ok (some " 这车空间很大 ")
      else if koubei_id = "k200" then .error ()
      else .ok none
    detail_url := fun koubei_id => koubei_id }

/-- A concrete registry: vehicles 1 and 3 never crawled, vehicle 2 crawled
at time 50, vehicle 4 crawled at time 20. -/
def testRegistry : List VehicleChannelRow :=
  [{ vehicle_channel_id := 1, channel_id_fk := 1,
     identifier_on_channel := "v1", last_comment_crawled_at := none },
   { vehicle_channel_id := 2, channel_id_fk := 1,
     identifier_on_channel := "v2", last_comment_crawled_at := some 50 },
   { vehicle_channel_id := 3, channel_id_fk := 1,
     identifier_on_channel := "v3", last_comment_crawled_at := none },
   { vehicle_channel_id := 4, channel_id_fk := 1,
     identifier_on_channel := "v4", last_comment_crawled_at := some 20 }]

/-- An upstream item carrying only the primary `id` field and a post time. -/
def upItem (i : String) (t : String) : UpstreamComment :=
  { id := i, Koubeiid := "", koubeiId := "", alibiId := "", commentId := "",
    uuid := "", posttime := t }

/-- A concrete two-page upstream in which item `"a"` repeats within page 1
and item `"b"` repeats across both pages. -/
def testPagedEnv : CrawlEnv :=
  { page_fetch := fun page =>
      if page = 1 then
        .ok [upItem "a" "2025-07-22", upItem "b" "", upItem "a" ""]
      else if page = 2 then
        .ok [upItem "b" "", upItem "c" "2025-07-22 10:00:00"]
      else .ok []
    detail_fetch := fun _ => .ok none
    detail_url := fun s => s }

/-- A processing environment whose store commits always succeed. -/
def testProcessingEnv : ProcessingEnv :=
  { semantic := testSemanticEnv
    save_commit_ok := fun _ => true }

/-- A `NEW` comment whose single chunk matches within the threshold. -/
def testComment1 : RawCommentRow :=
  { raw_comment_id := 1, vehicle_channel_id_fk := 5, identifier_on_channel := "k1",
    comment_content := "空间非常大我很满意", posted_at_on_channel := none,
    comment_source_url := "", processing_status := .new }

/-- A `NEW` comment whose single chunk is rejected at the threshold. -/
def testComment2 : RawCommentRow :=
  { raw_comment_id := 2, vehicle_channel_id_fk := 5, identifier_on_channel := "k2",
    comment_content := "动力一般般吧", posted_at_on_channel := none,
    comment_source_url := "", processing_status := .new }

/-- A concrete store with two `NEW` comments and no processed rows. -/
def testProcessingDB : ProcessingDB :=
  { comments := [testComment1, testComment2]
    processed_comments := [] }

/-! ## Theorems -/

/-- A blank part leaves the fold state unchanged. -/
theorem chunkStep_blank (st : String × List CommentChunk) (p : String)
    (h : pyStrip p = "") : chunkStep st p = st := by
  unfold chunkStep
  rw [if_pos h]

/-- A `【...】` part only moves the section title. -/
theorem chunkStep_header (st : String × List CommentChunk) (p : String)
    (h1 : ¬ pyStrip p = "")
    (h2 : (startsWithLBracket (pyStrip p) && endsWithRBracket (pyStrip p)) = true) :
    chunkStep st p = (pyStrip p, st.2) := by
  unfold chunkStep
  rw [if_neg h1, if_pos h2]

/-- A non-header part strictly longer than 5 characters is appended. -/
theorem chunkStep_keep (st : String × List CommentChunk) (p : String)
    (h1 : ¬ pyStrip p = "")
    (h2 : ¬ (startsWithLBracket (pyStrip p) && endsWithRBracket (pyStrip p)) = true)
    (h3 : 5 < (pyStrip p).length) :
    chunkStep st p = (st.1, st.2 ++ [⟨st.1, pyStrip p⟩]) := by
  unfold chunkStep
  rw [if_neg h1, if_neg h2, if_pos h3]

/-- A non-header part of at most 5 characters is dropped. -/
theorem chunkStep_short (st : String × List CommentChunk) (p : String)
    (h1 : ¬ pyStrip p = "")
    (h2 : ¬ (startsWithLBracket (pyStrip p) && endsWithRBracket (pyStrip p)) = true)
    (h3 : ¬ 5 < (pyStrip p).length) :
    chunkStep st p = st := by
  unfold chunkStep
  rw [if_neg h1, if_neg h2, if_neg h3]

/-- The section fold keeps exactly the stripped parts passing `chunkKeep`,
in order, whatever section title is current. -/
theorem chunkFold_filter (sections : List String) :
    ∀ (title : String) (acc : List CommentChunk),
      ((sections.foldl chunkStep (title, acc)).2).map (·.chunk_text)
        = acc.map (·.chunk_text) ++ (sections.map pyStrip).filter chunkKeep := by
  induction sections with
  | nil => intro title acc; simp
  | cons p ps ih =>
    intro title acc
    rw [List.foldl_cons, List.map_cons]
    by_cases h1 : pyStrip p = ""
    · rw [chunkStep_blank _ _ h1,
        List.filter_cons_of_neg (by rw [h1]; decide), ih]
    · by_cases h2 : (startsWithLBracket (pyStrip p) && endsWithRBracket (pyStrip p)) = true
      · rw [chunkStep_header _ _ h1 h2,
          List.filter_cons_of_neg (by unfold chunkKeep; rw [h2]; simp), ih]
      · by_cases h3 : 5 < (pyStrip p).length
        · rw [chunkStep_keep _ _ h1 h2 h3,
            List.filter_cons_of_pos
              (by unfold chunkKeep
                  rw [Bool.and_eq_true, decide_eq_true_eq]
                  refine ⟨?_, h3⟩
                  rw [Bool.not_eq_true']
                  exact Bool.eq_false_iff.mpr h2),
            ih]
          simp
        · rw [chunkStep_short _ _ h1 h2 h3,
            List.filter_cons_of_neg
              (by unfold chunkKeep
                  rw [Bool.and_eq_true, decide_eq_true_eq]
                  intro hcontra; exact h3 hcontra.2),
            ih]

/-- C4 (amended): `split_comment_into_chunks` discards exactly the stripped
segments of 5 or fewer characters (together with blank parts and `【...】`
headers): the output chunk texts are the `chunkKeep`-filtered stripped
regex parts, and every output chunk is strictly longer than 5 characters. -/
theorem chunker_min_length_amended (comment_text : String) :
    ((split_comment_into_chunks comment_text).map (·.chunk_text)
      = ((reSplitSections comment_text).map pyStrip).filter chunkKeep)
    ∧ ∀ c ∈ split_comment_into_chunks comment_text, 5 < c.chunk_text.length := by
  have h := chunkFold_filter (reSplitSections comment_text) "评论开头" []
  simp only [List.map_nil, List.nil_append] at h
  refine ⟨h, ?_⟩
  intro c hc
  have hmem : c.chunk_text
      ∈ ((reSplitSections comment_text).map pyStrip).filter chunkKeep := by
    rw [← h]
    exact List.mem_map_of_mem (·.chunk_text) hc
  have hkeep := (List.mem_filter.mp hmem).2
  unfold chunkKeep at hkeep
  rw [Bool.and_eq_true, decide_eq_true_eq] at hkeep
  exact hkeep.2

/-- C4 (counterexample): the text `"abcde"` is a single stripped segment of
exactly 5 characters, yet `split_comment_into_chunks` discards it, refuting
the claim that every segment of length at least 5 is kept. -/
theorem chunker_min_length_counterexample :
    (reSplitSections "abcde").map pyStrip = ["abcde"]
    ∧ ("abcde" : String).length = 5
    ∧ split_comment_into_chunks "abcde" = [] :=
  ⟨by decide, by decide, by decide⟩

/-- C4 (witness): a 6-character segment is kept, and the amended bound
applies to it. -/
theorem chunker_min_length_witness :
    (⟨"评论开头", "abcdef"⟩ : CommentChunk) ∈ split_comment_into_chunks "abcdef"
    ∧ 5 < (CommentChunk.mk "评论开头" "abcdef").chunk_text.length :=
  ⟨by decide, (chunker_min_length_amended "abcdef").2 ⟨"评论开头", "abcdef"⟩ (by decide)⟩

/-- C9: `split_comment_into_chunks` is a pure, deterministic function of
the input text — identical input text always yields an identical ordered
chunk list — and the empty input yields the empty chunk list. -/
theorem chunker_pure :
    (∀ s t : String, s = t →
      split_comment_into_chunks s = split_comment_into_chunks t)
    ∧ split_comment_into_chunks "" = [] :=
  ⟨fun _ _ h => by rw [h], rfl⟩

/-- C9 (witness): determinism applied at a concrete input, and the empty
input case evaluated. -/
theorem chunker_pure_witness :
    ("这车空间真的很大" : String) = "这车空间真的很大"
    ∧ split_comment_into_chunks "这车空间真的很大"
        = split_comment_into_chunks "这车空间真的很大" :=
  ⟨rfl, chunker_pure.1 "这车空间真的很大" "这车空间真的很大" rfl⟩

/-- The chunk loop of `process_comment_chunks` equals a `filterMap` of the
per-chunk classification whenever no search call raises. -/
theorem processChunksGo_filterMap (env : SemanticEnv) (raw_comment_id : Nat)
    (chunks : List CommentChunk) :
    ∀ acc, (∀ c ∈ chunks, ∃ r, env.search c.chunk_text = .ok r) →
      processChunksGo env raw_comment_id chunks acc
        = .ok (acc ++ chunks.filterMap (classifyChunk env raw_comment_id)) := by
  induction chunks with
  | nil => intro acc _; simp [processChunksGo]
  | cons c cs ih =>
    intro acc h
    obtain ⟨r, hr⟩ := h c (List.mem_cons_self c cs)
    have hrest : ∀ c' ∈ cs, ∃ r', env.search c'.chunk_text = .ok r' :=
      fun c' hc' => h c' (List.mem_cons_of_mem c hc')
    simp only [processChunksGo]
    rw [hr]
    cases r with
    | none =>
      have hclass : classifyChunk env raw_comment_id c = none := by
        unfold classifyChunk
        rw [hr]
      show processChunksGo env raw_comment_id cs acc = _
      rw [List.filterMap_cons, hclass, ih acc hrest]
    | some pr =>
      obtain ⟨doc, score⟩ := pr
      have hclass : classifyChunk env raw_comment_id c
          = if score < env.similarity_threshold then
              some (mkProcessingResult env raw_comment_id c doc score)
            else none := by
        unfold classifyChunk
        rw [hr]
      show (if score < env.similarity_threshold then
              processChunksGo env raw_comment_id cs
                (acc ++ [mkProcessingResult env raw_comment_id c doc score])
            else processChunksGo env raw_comment_id cs acc) = _
      by_cases hs : score < env.similarity_threshold
      · rw [if_pos hs, List.filterMap_cons, hclass, if_pos hs, ih _ hrest]
        simp
      · rw [if_neg hs, List.filterMap_cons, hclass, if_neg hs, ih acc hrest]

/-- C3: per chunk, classification accepts the best candidate exactly when
its distance is strictly below the configured threshold.  When no search
call raises, `process_comment_chunks` returns (as a normal `.ok` outcome)
precisely the per-chunk accepted results: a chunk whose best distance
equals the threshold contributes nothing, and a distance strictly below
the threshold contributes the result record carrying the matched feature
id, the distance score, the chunk text, the chunk vector, and the detail
blob (all fields set in `mkProcessingResult`). -/
theorem classify_threshold_boundary :
    (∀ (env : SemanticEnv) (raw_comment_id : Nat) (comment_text : String),
      (∀ c ∈ split_comment_into_chunks comment_text,
        ∃ r, env.search c.chunk_text = .ok r) →
      process_comment_chunks env raw_comment_id comment_text
        = .ok ((split_comment_into_chunks comment_text).filterMap
            (classifyChunk env raw_comment_id)))
    ∧ (∀ (env : SemanticEnv) (raw_comment_id : Nat) (c : CommentChunk)
        (doc : FeatureDoc) (score : ℚ),
        env.search c.chunk_text = .ok (some (doc, score)) →
        (env.similarity_threshold ≤ score →
          classifyChunk env raw_comment_id c = none)
        ∧ (score < env.similarity_threshold →
          classifyChunk env raw_comment_id c
            = some (mkProcessingResult env raw_comment_id c doc score))) := by
  constructor
  · intro env raw_comment_id comment_text h
    exact processChunksGo_filterMap env raw_comment_id _ [] h
  · intro env raw_comment_id c doc score h
    have hclass : classifyChunk env raw_comment_id c
        = if score < env.similarity_threshold then
            some (mkProcessingResult env raw_comment_id c doc score)
          else none := by
      unfold classifyChunk
      rw [h]
    constructor
    · intro hge
      rw [hclass, if_neg (not_lt.mpr hge)]
    · intro hlt
      rw [hclass, if_pos hlt]

/-- C3 (witness): in the concrete environment, a distance equal to the
threshold (10) is rejected, a distance strictly below it (3) is accepted
with the full result record, and the whole-call equation holds on a
one-chunk comment. -/
theorem classify_threshold_boundary_witness :
    (testSemanticEnv.search "空间太小了装不下" = .ok (some (featA, 10))
      ∧ testSemanticEnv.similarity_threshold ≤ 10
      ∧ classifyChunk testSemanticEnv 7 ⟨"评论开头", "空间太小了装不下"⟩ = none)
    ∧ (testSemanticEnv.search "空间非常大我很满意" = .ok (some (featA, 3))
      ∧ (3 : ℚ) < testSemanticEnv.similarity_threshold
      ∧ classifyChunk testSemanticEnv 7 ⟨"评论开头", "空间非常大我很满意"⟩
          = some (mkProcessingResult testSemanticEnv 7
              ⟨"评论开头", "空间非常大我很满意"⟩ featA 3))
    ∧ process_comment_chunks testSemanticEnv 7 "空间非常大我很满意"
        = .ok ((split_comment_into_chunks "空间非常大我很满意").filterMap
            (classifyChunk testSemanticEnv 7)) := by
  refine ⟨⟨rfl, by decide, ?_⟩, ⟨rfl, by decide, ?_⟩, ?_⟩
  · exact (classify_threshold_boundary.2 testSemanticEnv 7
      ⟨"评论开头", "空间太小了装不下"⟩ featA 10 rfl).1 (by decide)
  · exact (classify_threshold_boundary.2 testSemanticEnv 7
      ⟨"评论开头", "空间非常大我很满意"⟩ featA 3 rfl).2 (by decide)
  · refine classify_threshold_boundary.1 testSemanticEnv 7 "空间非常大我很满意" ?_
    intro c hc
    have hsplit : split_comment_into_chunks "空间非常大我很满意"
        = [⟨"评论开头", "空间非常大我很满意"⟩] := by decide
    rw [hsplit] at hc
    simp only [List.mem_singleton] at hc
    subst hc
    exact ⟨some (featA, 3), rfl⟩

/-- Every row built from a draft batch carries `ProcessingState = NEW`. -/
theorem draftRows_status (vehicle_channel_id : Nat) :
    ∀ (base : Nat) (ds : List NewCommentDraft),
      ∀ r ∈ draftRows vehicle_channel_id base ds, r.processing_status = .new := by
  intro base ds
  induction ds generalizing base with
  | nil => intro r hr; cases hr
  | cons d ds ih =>
    intro r hr
    simp only [draftRows] at hr
    rw [List.mem_cons] at hr
    rcases hr with rfl | hr
    · rfl
    · exact ih (base + 1) r hr

/-- The rows built from a draft batch keep the drafts' identifiers, in
order. -/
theorem draftRows_identifiers (vehicle_channel_id : Nat) :
    ∀ (base : Nat) (ds : List NewCommentDraft),
      (draftRows vehicle_channel_id base ds).map (·.identifier_on_channel)
        = ds.map (·.identifier_on_channel) := by
  intro base ds
  induction ds generalizing base with
  | nil => rfl
  | cons d ds ih =>
    simp only [draftRows, List.map_cons]
    rw [ih (base + 1)]

/-- C7: `_save_new_comments` persists the whole draft batch atomically with
`ProcessingState = NEW` and returns the count saved; a failed commit rolls
the entire batch back (the store is unchanged, no partial subset persists)
and the error is re-raised to the caller. -/
theorem save_new_comments_atomic (db : CommentStoreDB)
    (new_comments : List NewCommentDraft) (vehicle_channel_id : Nat)
    (commit_ok : Bool) :
    (commit_ok = true →
      (save_new_comments db new_comments vehicle_channel_id commit_ok).2
          = .ok new_comments.length
      ∧ (save_new_comments db new_comments vehicle_channel_id commit_ok).1.comments
          = db.comments ++ draftRows vehicle_channel_id db.next_id new_comments
      ∧ (∀ r ∈ draftRows vehicle_channel_id db.next_id new_comments,
          r.processing_status = .new)
      ∧ (draftRows vehicle_channel_id db.next_id new_comments).map
            (·.identifier_on_channel)
          = new_comments.map (·.identifier_on_channel))
    ∧ (commit_ok = false → ¬ new_comments = [] →
      (save_new_comments db new_comments vehicle_channel_id commit_ok).1 = db
      ∧ (save_new_comments db new_comments vehicle_channel_id commit_ok).2
          = .error ()) := by
  constructor
  · intro hck
    subst hck
    by_cases he : new_comments = []
    · subst he
      refine ⟨?_, ?_, draftRows_status vehicle_channel_id db.next_id [],
        draftRows_identifiers vehicle_channel_id db.next_id []⟩
      · rfl
      · show db.comments = db.comments ++ ([] : List RawCommentRow)
        rw [List.append_nil]
    · have he' : new_comments.isEmpty = false := by
        rw [List.isEmpty_eq_false_iff_exists_mem]
        rcases List.exists_mem_of_ne_nil new_comments he with ⟨x, hx⟩
        exact ⟨x, hx⟩
      unfold save_new_comments
      rw [he']
      exact ⟨rfl, rfl, draftRows_status vehicle_channel_id db.next_id new_comments,
        draftRows_identifiers vehicle_channel_id db.next_id new_comments⟩
  · intro hck hne
    subst hck
    have he' : new_comments.isEmpty = false := by
      rw [List.isEmpty_eq_false_iff_exists_mem]
      rcases List.exists_mem_of_ne_nil new_comments hne with ⟨x, hx⟩
      exact ⟨x, hx⟩
    unfold save_new_comments
    rw [he']
    exact ⟨rfl, rfl⟩

/-- C7 (witness): a two-draft batch saved with a succeeding commit returns
count 2 and appends both rows; with a failing commit the store is unchanged
and the error surfaces. -/
theorem save_new_comments_atomic_witness :
    ((save_new_comments ⟨[], 1⟩ [testDraft1, testDraft2] 5 true).2
        = .ok ([testDraft1, testDraft2] : List NewCommentDraft).length
      ∧ (save_new_comments ⟨[], 1⟩ [testDraft1, testDraft2] 5 true).1.comments
          = ([] : List RawCommentRow) ++ draftRows 5 1 [testDraft1, testDraft2]
      ∧ (∀ r ∈ draftRows 5 1 [testDraft1, testDraft2], r.processing_status = .new)
      ∧ (draftRows 5 1 [testDraft1, testDraft2]).map (·.identifier_on_channel)
          = ([testDraft1, testDraft2] : List NewCommentDraft).map
              (·.identifier_on_channel))
    ∧ ((save_new_comments ⟨[], 1⟩ [testDraft1, testDraft2] 5 false).1 = ⟨[], 1⟩
      ∧ (save_new_comments ⟨[], 1⟩ [testDraft1, testDraft2] 5 false).2 = .error ()) :=
  ⟨(save_new_comments_atomic ⟨[], 1⟩ [testDraft1, testDraft2] 5 true).1 rfl,
   (save_new_comments_atomic ⟨[], 1⟩ [testDraft1, testDraft2] 5 false).2 rfl
     (by decide)⟩

/-- When the correlation lookup finds a row, `scheduled_begin_job` reuses
it and leaves the ledger unchanged. -/
theorem scheduled_begin_job_found (db : JobLedgerDB) (celery_task_id : String)
    (j : ProcessingJobRow)
    (h : db.jobs.find? (scheduled_job_matches celery_task_id) = some j) :
    scheduled_begin_job db celery_task_id = (db, j.job_id) := by
  unfold scheduled_begin_job
  rw [h]

/-- When the correlation lookup finds nothing, `scheduled_begin_job`
appends one fresh row. -/
theorem scheduled_begin_job_new (db : JobLedgerDB) (celery_task_id : String)
    (h : db.jobs.find? (scheduled_job_matches celery_task_id) = none) :
    scheduled_begin_job db celery_task_id
      = ({ jobs := db.jobs ++ [new_scheduled_job_row db celery_task_id]
           next_id := db.next_id + 1 },
         db.next_id) := by
  unfold scheduled_begin_job
  rw [h]

/-- C5 (amended): the scheduled crawl's job creation is idempotent in the
correlation id — a second `begin` with the same `celery_task_id` returns
the same `job_id` and leaves the ledger unchanged, and one call adds at
most one row — while the manual crawl's job creation inserts a fresh row
on every call. -/
theorem job_begin_idempotency_amended :
    (∀ (db : JobLedgerDB) (celery_task_id : String),
      (scheduled_begin_job (scheduled_begin_job db celery_task_id).1
          celery_task_id).2
        = (scheduled_begin_job db celery_task_id).2
      ∧ (scheduled_begin_job (scheduled_begin_job db celery_task_id).1
          celery_task_id).1
        = (scheduled_begin_job db celery_task_id).1
      ∧ (scheduled_begin_job db celery_task_id).1.jobs.length
          ≤ db.jobs.length + 1)
    ∧ (∀ (db : JobLedgerDB) (celery_task_id : String),
      (manual_begin_job db celery_task_id).1.jobs.length
        = db.jobs.length + 1) := by
  constructor
  · intro db celery_task_id
    cases hfind : db.jobs.find? (scheduled_job_matches celery_task_id) with
    | some j =>
      have h1 := scheduled_begin_job_found db celery_task_id j hfind
      rw [h1]
      have h2 : scheduled_begin_job ((db, j.job_id) : JobLedgerDB × Nat).1
          celery_task_id = (db, j.job_id) :=
        scheduled_begin_job_found db celery_task_id j hfind
      rw [h2]
      exact ⟨rfl, rfl, Nat.le_succ _⟩
    | none =>
      have h1 := scheduled_begin_job_new db celery_task_id hfind
      rw [h1]
      have hrow : scheduled_job_matches celery_task_id
          (new_scheduled_job_row db celery_task_id) = true := by
        unfold scheduled_job_matches new_scheduled_job_row
        simp
      have hfind2 : (db.jobs ++ [new_scheduled_job_row db celery_task_id]).find?
          (scheduled_job_matches celery_task_id)
          = some (new_scheduled_job_row db celery_task_id) := by
        rw [List.find?_append, hfind]
        simp [List.find?_cons, hrow]
      have h2 := scheduled_begin_job_found
        ({ jobs := db.jobs ++ [new_scheduled_job_row db celery_task_id]
           next_id := db.next_id + 1 }) celery_task_id
        (new_scheduled_job_row db celery_task_id) hfind2
      rw [h2]
      refine ⟨rfl, rfl, ?_⟩
      rw [List.length_append]
      exact Nat.le_refl _
  · intro db celery_task_id
    unfold manual_begin_job
    simp

/-- C5 (counterexample): the manual crawl's job creation, called twice with
the same correlation id on an empty ledger, returns two different job ids
and leaves two rows — the claim that every `begin` reuses an existing
(jobType, correlationId) row fails for `manual_comment_crawl`. -/
theorem job_begin_idempotency_counterexample :
    ¬ (manual_begin_job (manual_begin_job ⟨[], 1⟩ "task-1").1 "task-1").2
        = (manual_begin_job ⟨[], 1⟩ "task-1").2
    ∧ (manual_begin_job (manual_begin_job ⟨[], 1⟩ "task-1").1 "task-1").1.jobs.length
        = 2 := by
  refine ⟨by decide, by decide⟩

/-- C8: detail scraping keeps every draft: the identifier list is unchanged
(so every collected identifier stays recorded for the run), each draft's
body text is exactly the looked-up content — computed independently of the
other drafts, so one failure never stops the remaining lookups — and a
failed (`.error`) or malformed (`.ok none`) detail lookup leaves the body
text empty instead of discarding the draft. -/
theorem scrape_contents_keeps_drafts (env : CrawlEnv)
    (new_comments : List NewCommentDraft) :
    ((scrape_comments_contents env true new_comments).map (·.identifier_on_channel)
      = new_comments.map (·.identifier_on_channel))
    ∧ (scrape_comments_contents env true new_comments).length
        = new_comments.length
    ∧ (∀ i (h1 : i < (scrape_comments_contents env true new_comments).length)
        (h2 : i < new_comments.length),
        ((scrape_comments_contents env true new_comments).get ⟨i, h1⟩).comment_content
          = scrape_single_comment_content env
              ((new_comments.get ⟨i, h2⟩).identifier_on_channel))
    ∧ (∀ koubei_id, env.detail_fetch koubei_id = .error () →
        scrape_single_comment_content env koubei_id = "")
    ∧ (∀ koubei_id, env.detail_fetch koubei_id = .ok none →
        scrape_single_comment_content env koubei_id = "") := by
  have hval : scrape_comments_contents env true new_comments
      = new_comments.map (fun cd =>
          { cd with
            comment_content := scrape_single_comment_content env cd.identifier_on_channel
            comment_source_url := env.detail_url cd.identifier_on_channel }) := by
    unfold scrape_comments_contents
    rfl
  refine ⟨?_, ?_, ?_, ?_, ?_⟩
  · rw [hval, List.map_map]
    rfl
  · rw [hval, List.length_map]
  · intro i h1 h2
    rw [List.get_of_eq hval ⟨i, h1⟩]
    simp only [List.get_eq_getElem, Fin.coe_cast, List.getElem_map]
  · intro koubei_id h
    unfold scrape_single_comment_content
    rw [h]
  · intro koubei_id h
    unfold scrape_single_comment_content
    rw [h]

/-- C8 (witness): on a concrete two-draft run, `"k100"` succeeds, `"k200"`
fails with a network error yet both drafts are kept in order; failed and
malformed lookups evaluate to an empty body text. -/
theorem scrape_contents_keeps_drafts_witness :
    ((scrape_comments_contents testCrawlEnv true [testDraft1, testDraft2]).map
        (·.identifier_on_channel) = ["k100", "k200"])
    ∧ testCrawlEnv.detail_fetch "k200" = .error ()
    ∧ scrape_single_comment_content testCrawlEnv "k200" = ""
    ∧ testCrawlEnv.detail_fetch "k300" = .ok none
    ∧ scrape_single_comment_content testCrawlEnv "k300" = "" := by
  refine ⟨?_, rfl, ?_, rfl, ?_⟩
  · rw [(scrape_contents_keeps_drafts testCrawlEnv [testDraft1, testDraft2]).1]
    rfl
  · exact (scrape_contents_keeps_drafts testCrawlEnv
      [testDraft1, testDraft2]).2.2.2.1 "k200" rfl
  · exact (scrape_contents_keeps_drafts testCrawlEnv
      [testDraft1, testDraft2]).2.2.2.2 "k300" rfl

/-- The never-crawled and previously-crawled partitions cover the registry. -/
theorem filter_crawled_partition (registry : List VehicleChannelRow) :
    (registry.filter (fun v => v.last_comment_crawled_at.isNone)).length
      + (registry.filter (fun v => v.last_comment_crawled_at.isSome)).length
      = registry.length := by
  induction registry with
  | nil => rfl
  | cons v vs ih =>
    cases h : v.last_comment_crawled_at with
    | none =>
      simp [List.filter_cons, h]
      omega
    | some t =>
      simp [List.filter_cons, h]
      omega

/-- In a `crawlLE`-sorted list, every kept element of `take n` is `crawlLE`
every element of `drop n`. -/
theorem sorted_take_le_drop (l : List VehicleChannelRow)
    (hsorted : List.Pairwise crawlLE l) (n : Nat) :
    ∀ x ∈ l.take n, ∀ y ∈ l.drop n, crawlLE x y := by
  have hsplit := List.take_append_drop n l
  rw [← hsplit] at hsorted
  rw [List.pairwise_append] at hsorted
  exact hsorted.2.2

/-- `select_crawl_targets` with its local bindings flattened. -/
theorem select_crawl_targets_eq (registry : List VehicleChannelRow) (k : Nat) :
    select_crawl_targets registry k
      = (if ((registry.filter (fun v => v.last_comment_crawled_at.isNone)).take k).length < k
          then (registry.filter (fun v => v.last_comment_crawled_at.isNone)).take k
            ++ (List.insertionSort crawlLE
                (registry.filter (fun v => v.last_comment_crawled_at.isSome))).take
                  (k - ((registry.filter
                    (fun v => v.last_comment_crawled_at.isNone)).take k).length)
          else (registry.filter (fun v => v.last_comment_crawled_at.isNone)).take k).take k
      := rfl

/-- C6: `select_crawl_targets` fills from the never-crawled vehicles first,
in stable storage order: with `M` never-crawled vehicles, a request for
`k ≤ M` returns exactly the first `k` never-crawled vehicles; a request for
`k > M` (with `k` within the registry size and distinct crawl timestamps)
returns all `M` never-crawled vehicles followed by exactly the `k − M`
previously-crawled vehicles with the oldest `last_comment_crawled_at`, in
ascending crawl-time order.  The result is a pure function of the registry
snapshot. -/
theorem select_crawl_targets_ordering (registry : List VehicleChannelRow)
    (k : Nat) (hk : k ≤ registry.length)
    (_hdist : (registry.filter (fun v => v.last_comment_crawled_at.isSome)).Pairwise
      (fun a b => crawlTimeOf a ≠ crawlTimeOf b)) :
    (k ≤ (registry.filter (fun v => v.last_comment_crawled_at.isNone)).length →
      select_crawl_targets registry k
        = (registry.filter (fun v => v.last_comment_crawled_at.isNone)).take k
      ∧ (select_crawl_targets registry k).length = k
      ∧ ∀ v ∈ select_crawl_targets registry k, v.last_comment_crawled_at = none)
    ∧ ((registry.filter (fun v => v.last_comment_crawled_at.isNone)).length < k →
      ∃ tail,
        select_crawl_targets registry k
          = registry.filter (fun v => v.last_comment_crawled_at.isNone) ++ tail
        ∧ tail.length
            = k - (registry.filter (fun v => v.last_comment_crawled_at.isNone)).length
        ∧ List.Sorted crawlLE tail
        ∧ (∀ x ∈ tail,
            x ∈ registry.filter (fun v => v.last_comment_crawled_at.isSome))
        ∧ (∀ y ∈ registry.filter (fun v => v.last_comment_crawled_at.isSome),
            y ∉ tail → ∀ x ∈ tail, crawlTimeOf x ≤ crawlTimeOf y)) := by
  have hpart := filter_crawled_partition registry
  constructor
  · intro hkM
    have htk : ((registry.filter (fun v => v.last_comment_crawled_at.isNone)).take k).length
        = k := by
      rw [List.length_take]
      omega
    have hsel : select_crawl_targets registry k
        = (registry.filter (fun v => v.last_comment_crawled_at.isNone)).take k := by
      rw [select_crawl_targets_eq, if_neg (by rw [htk]; omega),
        List.take_take, Nat.min_self]
    refine ⟨hsel, ?_, ?_⟩
    · rw [hsel, htk]
    · intro v hv
      rw [hsel] at hv
      have hv' := List.mem_of_mem_take hv
      have := (List.mem_filter.mp hv').2
      rwa [Option.isNone_iff_eq_none] at this
  · intro hMk
    have huncr : (registry.filter (fun v => v.last_comment_crawled_at.isNone)).take k
        = registry.filter (fun v => v.last_comment_crawled_at.isNone) :=
      List.take_of_length_le (by omega)
    have hsortlen : (List.insertionSort crawlLE
        (registry.filter (fun v => v.last_comment_crawled_at.isSome))).length
        = (registry.filter (fun v => v.last_comment_crawled_at.isSome)).length :=
      (List.perm_insertionSort crawlLE _).length_eq
    have htail_len : ((List.insertionSort crawlLE
        (registry.filter (fun v => v.last_comment_crawled_at.isSome))).take
          (k - (registry.filter (fun v => v.last_comment_crawled_at.isNone)).length)).length
        = k - (registry.filter (fun v => v.last_comment_crawled_at.isNone)).length := by
      rw [List.length_take, hsortlen]
      omega
    have hsel : select_crawl_targets registry k
        = registry.filter (fun v => v.last_comment_crawled_at.isNone)
          ++ (List.insertionSort crawlLE
              (registry.filter (fun v => v.last_comment_crawled_at.isSome))).take
                (k - (registry.filter (fun v => v.last_comment_crawled_at.isNone)).length) := by
      rw [select_crawl_targets_eq, huncr, if_pos hMk]
      apply List.take_of_length_le
      rw [List.length_append, htail_len]
      omega
    refine ⟨_, hsel, htail_len, ?_, ?_, ?_⟩
    · exact (List.sorted_insertionSort crawlLE _).sublist
        (List.take_sublist _ _)
    · intro x hx
      have hx' := List.mem_of_mem_take hx
      exact ((List.perm_insertionSort crawlLE _).mem_iff).mp hx'
    · intro y hy hyn x hx
      have hy' : y ∈ List.insertionSort crawlLE
          (registry.filter (fun v => v.last_comment_crawled_at.isSome)) :=
        ((List.perm_insertionSort crawlLE _).mem_iff).mpr hy
      rw [← List.take_append_drop
        (k - (registry.filter (fun v => v.last_comment_crawled_at.isNone)).length)
        (List.insertionSort crawlLE
          (registry.filter (fun v => v.last_comment_crawled_at.isSome)))] at hy'
      rcases List.mem_append.mp hy' with hy'' | hy''
      · exact absurd hy'' hyn
      · exact sorted_take_le_drop _
          (List.sorted_insertionSort crawlLE _) _ x hx y hy''

/-- C6 (witness): on the concrete registry (2 never-crawled, 2 crawled at
distinct times 50 and 20), requesting 3 targets returns both never-crawled
vehicles plus the single oldest-crawled one; requesting 2 returns the first
2 never-crawled vehicles. -/
theorem select_crawl_targets_ordering_witness :
    (∃ tail,
      select_crawl_targets testRegistry 3
        = testRegistry.filter (fun v => v.last_comment_crawled_at.isNone) ++ tail
      ∧ tail.length
          = 3 - (testRegistry.filter (fun v => v.last_comment_crawled_at.isNone)).length
      ∧ List.Sorted crawlLE tail
      ∧ (∀ x ∈ tail,
          x ∈ testRegistry.filter (fun v => v.last_comment_crawled_at.isSome))
      ∧ (∀ y ∈ testRegistry.filter (fun v => v.last_comment_crawled_at.isSome),
          y ∉ tail → ∀ x ∈ tail, crawlTimeOf x ≤ crawlTimeOf y))
    ∧ select_crawl_targets testRegistry 2
        = (testRegistry.filter (fun v => v.last_comment_crawled_at.isNone)).take 2 :=
  ⟨(select_crawl_targets_ordering testRegistry 3 (by decide) (by decide)).2 (by decide),
   ((select_crawl_targets_ordering testRegistry 2 (by decide) (by decide)).1
     (by decide)).1⟩

/-- Invariants of the item loop: the draft identifiers mirror the seen-set;
every seen identifier is old or a fresh, non-stored, non-empty reached one;
the seen-set only grows; it stays duplicate-free; and every non-empty item
identifier of the page ends up stored-or-seen. -/
theorem collectItems_spec (existing : List String) (items : List UpstreamComment) :
    ∀ (acc : List NewCommentDraft) (seen : List String),
      acc.map (·.identifier_on_channel) = seen →
      ((collectItems existing items acc seen).1.map (·.identifier_on_channel)
          = (collectItems existing items acc seen).2)
      ∧ (∀ x ∈ (collectItems existing items acc seen).2,
          x ∈ seen ∨ (x ∈ items.map extract_comment_id ∧ x ∉ existing ∧ ¬ x = ""))
      ∧ (∀ x ∈ seen, x ∈ (collectItems existing items acc seen).2)
      ∧ (seen.Nodup → (collectItems existing items acc seen).2.Nodup)
      ∧ (∀ c ∈ items, ¬ extract_comment_id c = "" →
          extract_comment_id c ∈ existing
          ∨ extract_comment_id c ∈ (collectItems existing items acc seen).2) := by
  induction items with
  | nil =>
    intro acc seen hmap
    refine ⟨hmap, fun x hx => Or.inl hx, fun x hx => hx, fun h => h, ?_⟩
    intro c hc
    cases hc
  | cons c cs ih =>
    intro acc seen hmap
    by_cases h0 : extract_comment_id c = ""
    · have hstep : collectItems existing (c :: cs) acc seen
          = collectItems existing cs acc seen := by
        simp only [collectItems]
        rw [if_pos h0]
      rw [hstep]
      obtain ⟨i1, i2, i3, i4, i5⟩ := ih acc seen hmap
      refine ⟨i1, ?_, i3, i4, ?_⟩
      · intro x hx
        rcases i2 x hx with hx' | hx'
        · exact Or.inl hx'
        · exact Or.inr ⟨List.mem_cons_of_mem _ hx'.1, hx'.2⟩
      · intro d hd hne
        rw [List.mem_cons] at hd
        rcases hd with rfl | hd
        · exact absurd h0 hne
        · exact i5 d hd hne
    · by_cases h1 : extract_comment_id c ∈ existing ∨ extract_comment_id c ∈ seen
      · have hstep : collectItems existing (c :: cs) acc seen
            = collectItems existing cs acc seen := by
          simp only [collectItems]
          rw [if_neg h0, if_pos h1]
        rw [hstep]
        obtain ⟨i1, i2, i3, i4, i5⟩ := ih acc seen hmap
        refine ⟨i1, ?_, i3, i4, ?_⟩
        · intro x hx
          rcases i2 x hx with hx' | hx'
          · exact Or.inl hx'
          · exact Or.inr ⟨List.mem_cons_of_mem _ hx'.1, hx'.2⟩
        · intro d hd hne
          rw [List.mem_cons] at hd
          rcases hd with rfl | hd
          · rcases h1 with h1 | h1
            · exact Or.inl h1
            · exact Or.inr (i3 _ h1)
          · exact i5 d hd hne
      · have hstep : collectItems existing (c :: cs) acc seen
            = collectItems existing cs
                (acc ++ [{ identifier_on_channel := extract_comment_id c
                           comment_content := ""
                           posted_at_on_channel := parse_post_time c.posttime
                           comment_source_url := "" }])
                (seen ++ [extract_comment_id c]) := by
          simp only [collectItems]
          rw [if_neg h0, if_neg h1]
        rw [hstep]
        push_neg at h1
        have hmap' : (acc ++ [({ identifier_on_channel := extract_comment_id c
                                 comment_content := ""
                                 posted_at_on_channel := parse_post_time c.posttime
                                 comment_source_url := "" } : NewCommentDraft)]).map
              (·.identifier_on_channel)
            = seen ++ [extract_comment_id c] := by
          rw [List.map_append, hmap]
          rfl
        obtain ⟨i1, i2, i3, i4, i5⟩ := ih _ _ hmap'
        refine ⟨i1, ?_, ?_, ?_, ?_⟩
        · intro x hx
          rcases i2 x hx with hx' | hx'
          · rw [List.mem_append, List.mem_singleton] at hx'
            rcases hx' with hx' | rfl
            · exact Or.inl hx'
            · refine Or.inr ⟨?_, h1.1, h0⟩
              rw [List.map_cons]
              exact List.mem_cons_self _ _
          · exact Or.inr ⟨List.mem_cons_of_mem _ hx'.1, hx'.2⟩
        · intro x hx
          exact i3 x (List.mem_append_left _ hx)
        · intro hnd
          apply i4
          rw [List.nodup_append]
          exact ⟨hnd, List.nodup_singleton _,
            fun a ha hb => by
              rw [List.mem_singleton] at hb
              subst hb
              exact h1.2 ha⟩
        · intro d hd hne
          rw [List.mem_cons] at hd
          rcases hd with rfl | hd
          · exact Or.inr (i3 _ (List.mem_append_right _ (List.mem_singleton.mpr rfl)))
          · exact i5 d hd hne

/-- The page-loop invariants: same five invariants as `collectItems_spec`,
over the pages the run actually walks (`reachedIds`). -/
theorem collectPages_spec (env : CrawlEnv) (existing : List String)
    (pages : List Nat) :
    ∀ (acc : List NewCommentDraft) (seen : List String),
      acc.map (·.identifier_on_channel) = seen →
      ((collectPages env existing pages acc seen).1.map (·.identifier_on_channel)
          = (collectPages env existing pages acc seen).2)
      ∧ (∀ x ∈ (collectPages env existing pages acc seen).2,
          x ∈ seen ∨ (x ∈ reachedIds env pages ∧ x ∉ existing ∧ ¬ x = ""))
      ∧ (∀ x ∈ seen, x ∈ (collectPages env existing pages acc seen).2)
      ∧ (seen.Nodup → (collectPages env existing pages acc seen).2.Nodup)
      ∧ (∀ y ∈ reachedIds env pages, ¬ y = "" →
          y ∈ existing ∨ y ∈ (collectPages env existing pages acc seen).2) := by
  induction pages with
  | nil =>
    intro acc seen hmap
    refine ⟨hmap, fun x hx => Or.inl hx, fun x hx => hx, fun h => h, ?_⟩
    intro y hy
    cases hy
  | cons page rest ih =>
    intro acc seen hmap
    cases hpf : env.page_fetch page with
    | error e =>
      have hstep : collectPages env existing (page :: rest) acc seen
          = collectPages env existing rest acc seen := by
        simp only [collectPages]
        rw [hpf]
      have hreach : reachedIds env (page :: rest) = reachedIds env rest := by
        simp only [reachedIds]
        rw [hpf]
      rw [hstep, hreach]
      exact ih acc seen hmap
    | ok comments =>
      by_cases hemp : comments.isEmpty = true
      · have hstep : collectPages env existing (page :: rest) acc seen
            = (acc, seen) := by
          simp only [collectPages]
          rw [hpf]
          show (if comments.isEmpty = true then (acc, seen)
            else collectPages env existing rest
              (collectItems existing comments acc seen).1
              (collectItems existing comments acc seen).2) = (acc, seen)
          rw [if_pos hemp]
        have hreach : reachedIds env (page :: rest) = [] := by
          simp only [reachedIds]
          rw [hpf]
          show (if comments.isEmpty = true then ([] : List String)
            else comments.map extract_comment_id ++ reachedIds env rest) = []
          rw [if_pos hemp]
        rw [hstep, hreach]
        refine ⟨hmap, fun x hx => Or.inl hx, fun x hx => hx, fun h => h, ?_⟩
        intro y hy
        cases hy
      · have hstep : collectPages env existing (page :: rest) acc seen
            = collectPages env existing rest
                (collectItems existing comments acc seen).1
                (collectItems existing comments acc seen).2 := by
          simp only [collectPages]
          rw [hpf]
          show (if comments.isEmpty = true then (acc, seen)
            else collectPages env existing rest
              (collectItems existing comments acc seen).1
              (collectItems existing comments acc seen).2) = _
          rw [if_neg hemp]
        have hreach : reachedIds env (page :: rest)
            = comments.map extract_comment_id ++ reachedIds env rest := by
          simp only [reachedIds]
          rw [hpf]
          show (if comments.isEmpty = true then ([] : List String)
            else comments.map extract_comment_id ++ reachedIds env rest) = _
          rw [if_neg hemp]
        rw [hstep, hreach]
        obtain ⟨j1, j2, j3, j4, j5⟩ := collectItems_spec existing comments acc seen hmap
        obtain ⟨i1, i2, i3, i4, i5⟩ := ih _ _ j1
        refine ⟨i1, ?_, ?_, fun hnd => i4 (j4 hnd), ?_⟩
        · intro x hx
          rcases i2 x hx with hx' | hx'
          · rcases j2 x hx' with hx'' | hx''
            · exact Or.inl hx''
            · exact Or.inr ⟨List.mem_append_left _ hx''.1, hx''.2⟩
          · exact Or.inr ⟨List.mem_append_right _ hx'.1, hx'.2⟩
        · intro x hx
          exact i3 x (j3 x hx)
        · intro y hy hne
          rw [List.mem_append] at hy
          rcases hy with hy | hy
          · rw [List.mem_map] at hy
            obtain ⟨c, hc, rfl⟩ := hy
            rcases j5 c hc hne with h' | h'
            · exact Or.inl h'
            · exact Or.inr (i3 _ h')
          · exact i5 y hy hne

/-- C2: one `_collect_new_comments` run returns drafts whose identifiers
are pairwise distinct (even when the upstream repeats items across pages)
and disjoint from the existing-set; consequently, a second run over the
same unchanged upstream whose existing-set covers the first run's output
(plus the old existing-set) returns zero drafts. -/
theorem collect_new_comments_dedup (env : CrawlEnv) (existing : List String)
    (max_pages : Nat) :
    ((collect_new_comments env existing max_pages).map
        (·.identifier_on_channel)).Nodup
    ∧ (∀ d ∈ collect_new_comments env existing max_pages,
        d.identifier_on_channel ∉ existing)
    ∧ ∀ existing2 : List String,
        (∀ x ∈ existing, x ∈ existing2) →
        (∀ d ∈ collect_new_comments env existing max_pages,
          d.identifier_on_channel ∈ existing2) →
        collect_new_comments env existing2 max_pages = [] := by
  obtain ⟨i1, i2, i3, i4, i5⟩ :=
    collectPages_spec env existing (List.range' 1 max_pages) [] [] rfl
  refine ⟨?_, ?_, ?_⟩
  · unfold collect_new_comments
    rw [i1]
    exact i4 List.nodup_nil
  · intro d hd
    have hx : d.identifier_on_channel
        ∈ (collectPages env existing (List.range' 1 max_pages) [] []).2 := by
      rw [← i1]
      exact List.mem_map_of_mem _ hd
    rcases i2 _ hx with h' | h'
    · cases h'
    · exact h'.2.1
  · intro existing2 hsub hcov
    obtain ⟨k1, k2, k3, k4, k5⟩ :=
      collectPages_spec env existing2 (List.range' 1 max_pages) [] [] rfl
    have hempty : ∀ x,
        x ∉ (collectPages env existing2 (List.range' 1 max_pages) [] []).2 := by
      intro x hx
      rcases k2 x hx with h' | h'
      · cases h'
      · obtain ⟨hreach, hnotex2, hne⟩ := h'
        rcases i5 x hreach hne with h'' | h''
        · exact hnotex2 (hsub x h'')
        · rw [← i1, List.mem_map] at h''
          obtain ⟨d, hd, rfl⟩ := h''
          exact hnotex2 (hcov d hd)
    have h2 : (collectPages env existing2 (List.range' 1 max_pages) [] []).2 = [] :=
      List.eq_nil_iff_forall_not_mem.mpr hempty
    unfold collect_new_comments
    have h3 := k1
    rw [h2] at h3
    exact List.map_eq_nil_iff.mp h3

/-- C2 (witness): on the concrete two-page upstream with an in-page repeat
of `"a"` and a cross-page repeat of `"b"` (already stored), the run yields
exactly the drafts `"a"` and `"c"`, duplicate-free and disjoint from the
store; a second run after storing them yields zero drafts. -/
theorem collect_new_comments_dedup_witness :
    ((collect_new_comments testPagedEnv ["b"] 2).map (·.identifier_on_channel)
        = ["a", "c"])
    ∧ ((collect_new_comments testPagedEnv ["b"] 2).map
        (·.identifier_on_channel)).Nodup
    ∧ (∀ x ∈ ["b"], x ∈ ["b", "a", "c"])
    ∧ (∀ d ∈ collect_new_comments testPagedEnv ["b"] 2,
        d.identifier_on_channel ∈ ["b", "a", "c"])
    ∧ collect_new_comments testPagedEnv ["b", "a", "c"] 2 = [] := by
  refine ⟨by decide, (collect_new_comments_dedup testPagedEnv ["b"] 2).1,
    by decide, by decide, ?_⟩
  exact (collect_new_comments_dedup testPagedEnv ["b"] 2).2.2
    ["b", "a", "c"] (by decide) (by decide)

/-- A status update at one key leaves every other key's status unchanged. -/
theorem find_update_ne (l : List RawCommentRow) (j i : Nat)
    (st : ProcessingStatus) (h : ¬ i = j) :
    (l.map (fun r => if r.raw_comment_id = j then { r with processing_status := st }
      else r)).find? (fun r => r.raw_comment_id = i)
      = l.find? (fun r => r.raw_comment_id = i) := by
  induction l with
  | nil => rfl
  | cons r rs ih =>
    by_cases hj : r.raw_comment_id = j
    · have hi : (decide (r.raw_comment_id = i)) = false := by
        simp [hj]
        intro hcontra
        exact absurd hcontra.symm h
      simp only [List.map_cons, if_pos hj, List.find?_cons]
      rw [hi]
      exact ih
    · simp only [List.map_cons, if_neg hj, List.find?_cons]
      cases hi : decide (r.raw_comment_id = i) with
      | true => rfl
      | false => exact ih

/-- A status update at a key rewrites exactly that key's found row. -/
theorem find_update_eq (l : List RawCommentRow) (j : Nat)
    (st : ProcessingStatus) :
    (l.map (fun r => if r.raw_comment_id = j then { r with processing_status := st }
      else r)).find? (fun r => r.raw_comment_id = j)
      = (l.find? (fun r => r.raw_comment_id = j)).map
          (fun r => { r with processing_status := st }) := by
  induction l with
  | nil => rfl
  | cons r rs ih =>
    by_cases hj : r.raw_comment_id = j
    · have hd : (decide (r.raw_comment_id = j)) = true := by simp [hj]
      simp only [List.map_cons, if_pos hj, List.find?_cons]
      rw [hd]
      rfl
    · have hd : (decide (r.raw_comment_id = j)) = false := by simp [hj]
      simp only [List.map_cons, if_neg hj, List.find?_cons]
      rw [hd]
      exact ih

/-- `update_comment_status` leaves other comments' statuses alone. -/
theorem statusOf_update_ne (db : ProcessingDB) (j : Nat) (st : ProcessingStatus)
    (i : Nat) (h : ¬ i = j) :
    statusOf (update_comment_status db j st) i = statusOf db i := by
  unfold statusOf update_comment_status
  rw [find_update_ne db.comments j i st h]

/-- `update_comment_status` sets the status of an existing target row. -/
theorem statusOf_update_self (db : ProcessingDB) (j : Nat) (st : ProcessingStatus)
    (h : (statusOf db j).isSome = true) :
    statusOf (update_comment_status db j st) j = some st := by
  unfold statusOf update_comment_status
  rw [find_update_eq db.comments j st]
  unfold statusOf at h
  cases hf : db.comments.find? (fun r => r.raw_comment_id = j) with
  | none => rw [hf] at h; simp at h
  | some r => rfl

/-- `update_comment_status` preserves which statuses exist. -/
theorem statusOf_update_isSome (db : ProcessingDB) (j : Nat)
    (st : ProcessingStatus) (i : Nat) :
    (statusOf (update_comment_status db j st) i).isSome = (statusOf db i).isSome := by
  by_cases h : i = j
  · subst h
    unfold statusOf update_comment_status
    rw [find_update_eq db.comments i st]
    cases hf : db.comments.find? (fun r => r.raw_comment_id = i) <;> rfl
  · rw [statusOf_update_ne db j st i h]

/-- `update_comment_status` does not touch the processed-comment rows. -/
theorem update_rows_eq (db : ProcessingDB) (j : Nat) (st : ProcessingStatus) :
    (update_comment_status db j st).processed_comments = db.processed_comments := rfl

/-- `update_comment_status` does not change any row count. -/
theorem resultRowsFor_update (db : ProcessingDB) (j : Nat) (st : ProcessingStatus)
    (i : Nat) :
    resultRowsFor (update_comment_status db j st) i = resultRowsFor db i := rfl

/-- A comment row that is in the table has a status. -/
theorem statusOf_isSome_of_mem (db : ProcessingDB) (c : RawCommentRow)
    (hc : c ∈ db.comments) : (statusOf db c.raw_comment_id).isSome = true := by
  have hfs : (db.comments.find?
      (fun r => r.raw_comment_id = c.raw_comment_id)).isSome = true :=
    List.find?_isSome.mpr ⟨c, hc, by simp⟩
  unfold statusOf
  cases hf : db.comments.find? (fun r => r.raw_comment_id = c.raw_comment_id) with
  | none => rw [hf] at hfs; simp at hfs
  | some r => rfl

/-- Every result produced by the chunk loop carries the id of the comment
being processed. -/
theorem processChunksGo_ids (env : SemanticEnv) (raw_comment_id : Nat)
    (chunks : List CommentChunk) :
    ∀ (acc results : List ProcessingResult),
      (∀ r ∈ acc, r.raw_comment_id = raw_comment_id) →
      processChunksGo env raw_comment_id chunks acc = .ok results →
      ∀ r ∈ results, r.raw_comment_id = raw_comment_id := by
  induction chunks with
  | nil =>
    intro acc results hacc heq
    simp only [processChunksGo] at heq
    cases heq
    exact hacc
  | cons c cs ih =>
    intro acc results hacc heq
    simp only [processChunksGo] at heq
    cases hs : env.search c.chunk_text with
    | error e => rw [hs] at heq; cases heq
    | ok r =>
      rw [hs] at heq
      cases r with
      | none => exact ih acc results hacc heq
      | some pr =>
        obtain ⟨doc, score⟩ := pr
        have heq' : (if score < env.similarity_threshold then
            processChunksGo env raw_comment_id cs
              (acc ++ [mkProcessingResult env raw_comment_id c doc score])
          else processChunksGo env raw_comment_id cs acc) = .ok results := heq
        by_cases hlt : score < env.similarity_threshold
        · rw [if_pos hlt] at heq'
          refine ih _ results ?_ heq'
          intro r hr
          rw [List.mem_append, List.mem_singleton] at hr
          rcases hr with hr | rfl
          · exact hacc r hr
          · rfl
        · rw [if_neg hlt] at heq'
          exact ih acc results hacc heq'

/-- Every result of `process_comment_chunks` carries the comment's id. -/
theorem process_comment_chunks_ids (env : SemanticEnv) (raw_comment_id : Nat)
    (comment_text : String) (results : List ProcessingResult)
    (h : process_comment_chunks env raw_comment_id comment_text = .ok results) :
    ∀ r ∈ results, r.raw_comment_id = raw_comment_id :=
  processChunksGo_ids env raw_comment_id _ [] results (fun r hr => absurd hr
    (List.not_mem_nil r)) h

/-- `save_processed_comments` on a non-empty batch with a succeeding
commit appends exactly the batch, stamped with the job id. -/
theorem save_ok_eq (env : ProcessingEnv) (db : ProcessingDB)
    (results : List ProcessingResult) (job_id : Option Nat)
    (hne : ¬ results.isEmpty = true) (hcommit : env.save_commit_ok results = true) :
    save_processed_comments env db results job_id
      = ({ db with processed_comments :=
             db.processed_comments ++ results.map (fun r => ⟨job_id, r⟩) },
         .ok results.length) := by
  unfold save_processed_comments
  rw [if_neg hne, if_pos hcommit]

/-- `save_processed_comments` on a non-empty batch with a failing commit
persists nothing and raises. -/
theorem save_fail_eq (env : ProcessingEnv) (db : ProcessingDB)
    (results : List ProcessingResult) (job_id : Option Nat)
    (hne : ¬ results.isEmpty = true)
    (hcommit : env.save_commit_ok results = false) :
    save_processed_comments env db results job_id = (db, .error ()) := by
  unfold save_processed_comments
  rw [if_neg hne, if_neg (by rw [hcommit]; exact Bool.false_ne_true)]

/-- Appending rows that all belong to one comment adds their count to that
comment's row count and leaves every other comment's row count alone. -/
theorem resultRowsFor_append (db : ProcessingDB)
    (rows : List StoredProcessedComment) (rid : Nat)
    (hrows : ∀ r ∈ rows, r.result.raw_comment_id = rid) (i : Nat) :
    resultRowsFor { db with processed_comments := db.processed_comments ++ rows } i
      = resultRowsFor db i + (if i = rid then rows.length else 0) := by
  unfold resultRowsFor
  rw [List.filter_append, List.length_append]
  by_cases hi : i = rid
  · subst hi
    rw [if_pos rfl]
    have : rows.filter (fun r => r.result.raw_comment_id = i) = rows :=
      List.filter_eq_self.mpr (fun r hr => by simp [hrows r hr])
    rw [this]
  · rw [if_neg hi]
    have hnil : rows.filter (fun r => r.result.raw_comment_id = i) = [] := by
      apply List.filter_eq_nil_iff.mpr
      intro r hr
      simp only [decide_eq_true_eq]
      rw [hrows r hr]
      exact fun hcontra => hi hcontra.symm
    rw [hnil, List.length_nil]

/-- `process_single_comment` when classification raises: the comment is
marked `FAILED` and the exception propagates. -/
theorem process_single_eq_error (env : ProcessingEnv) (db : ProcessingDB)
    (rc : RawCommentRow) (job_id : Option Nat)
    (h : process_comment_chunks env.semantic rc.raw_comment_id rc.comment_content
      = .error ()) :
    process_single_comment env db rc job_id
      = (update_comment_status
          (update_comment_status db rc.raw_comment_id .processing)
          rc.raw_comment_id .failed, .error ()) := by
  unfold process_single_comment
  rw [h]

/-- `process_single_comment` with zero accepted chunks: the comment is
marked `SKIPPED` and the empty result list is returned. -/
theorem process_single_eq_skip (env : ProcessingEnv) (db : ProcessingDB)
    (rc : RawCommentRow) (job_id : Option Nat)
    (h : process_comment_chunks env.semantic rc.raw_comment_id rc.comment_content
      = .ok []) :
    process_single_comment env db rc job_id
      = (update_comment_status
          (update_comment_status db rc.raw_comment_id .processing)
          rc.raw_comment_id .skipped, .ok []) := by
  unfold process_single_comment
  rw [h]
  rfl

/-- `process_single_comment` with accepted chunks and a succeeding commit:
the rows are persisted and the comment is marked `COMPLETED`. -/
theorem process_single_eq_completed (env : ProcessingEnv) (db : ProcessingDB)
    (rc : RawCommentRow) (job_id : Option Nat) (results : List ProcessingResult)
    (h : process_comment_chunks env.semantic rc.raw_comment_id rc.comment_content
      = .ok results)
    (hne : ¬ results.isEmpty = true)
    (hcommit : env.save_commit_ok results = true) :
    process_single_comment env db rc job_id
      = (update_comment_status
          { update_comment_status db rc.raw_comment_id .processing with
            processed_comments :=
              (update_comment_status db rc.raw_comment_id .processing).processed_comments
                ++ results.map (fun r => ⟨job_id, r⟩) }
          rc.raw_comment_id .completed, .ok results) := by
  unfold process_single_comment
  rw [h]
  show (if results.isEmpty = true then
      (update_comment_status
        (update_comment_status db rc.raw_comment_id .processing)
        rc.raw_comment_id .skipped, (.ok results : Except Unit (List ProcessingResult)))
    else
      match save_processed_comments env
          (update_comment_status db rc.raw_comment_id .processing) results job_id with
      | (db2, .ok _) =>
        (update_comment_status db2 rc.raw_comment_id .completed, .ok results)
      | (db2, .error _) =>
        (update_comment_status db2 rc.raw_comment_id .failed, .error ())) = _
  rw [if_neg hne, save_ok_eq env _ results job_id hne hcommit]

/-- `process_single_comment` with accepted chunks and a failing commit:
nothing persists, the comment is marked `FAILED`, and the error propagates. -/
theorem process_single_eq_save_fail (env : ProcessingEnv) (db : ProcessingDB)
    (rc : RawCommentRow) (job_id : Option Nat) (results : List ProcessingResult)
    (h : process_comment_chunks env.semantic rc.raw_comment_id rc.comment_content
      = .ok results)
    (hne : ¬ results.isEmpty = true)
    (hcommit : env.save_commit_ok results = false) :
    process_single_comment env db rc job_id
      = (update_comment_status
          (update_comment_status db rc.raw_comment_id .processing)
          rc.raw_comment_id .failed, .error ()) := by
  unfold process_single_comment
  rw [h]
  show (if results.isEmpty = true then
      (update_comment_status
        (update_comment_status db rc.raw_comment_id .processing)
        rc.raw_comment_id .skipped, (.ok results : Except Unit (List ProcessingResult)))
    else
      match save_processed_comments env
          (update_comment_status db rc.raw_comment_id .processing) results job_id with
      | (db2, .ok _) =>
        (update_comment_status db2 rc.raw_comment_id .completed, .ok results)
      | (db2, .error _) =>
        (update_comment_status db2 rc.raw_comment_id .failed, .error ())) = _
  rw [if_neg hne, save_fail_eq env _ results job_id hne hcommit]

/-- Replacing the processed-comment rows does not change any status. -/
theorem statusOf_set_rows (db : ProcessingDB) (rows : List StoredProcessedComment)
    (i : Nat) :
    statusOf { db with processed_comments := rows } i = statusOf db i := rfl

/-- Row counting of `process_single_comment`: a normal return appends
exactly the returned results as rows; a raised error appends nothing. -/
theorem process_single_rows (env : ProcessingEnv) (db : ProcessingDB)
    (rc : RawCommentRow) (job_id : Option Nat) :
    (∀ results, (process_single_comment env db rc job_id).2 = .ok results →
      (process_single_comment env db rc job_id).1.processed_comments.length
        = db.processed_comments.length + results.length)
    ∧ ((process_single_comment env db rc job_id).2 = .error () →
      (process_single_comment env db rc job_id).1.processed_comments.length
        = db.processed_comments.length) := by
  cases hpc : process_comment_chunks env.semantic rc.raw_comment_id rc.comment_content with
  | error e =>
    cases e
    rw [process_single_eq_error env db rc job_id hpc]
    constructor
    · intro results h2
      cases h2
    · intro _
      rfl
  | ok results0 =>
    by_cases hemp : results0.isEmpty = true
    · have h0 : results0 = [] := List.isEmpty_iff.mp hemp
      subst h0
      rw [process_single_eq_skip env db rc job_id hpc]
      constructor
      · intro results h2
        injection h2 with h3
        subst h3
        rfl
      · intro h2
        cases h2
    · cases hcommit : env.save_commit_ok results0 with
      | true =>
        rw [process_single_eq_completed env db rc job_id results0 hpc hemp hcommit]
        constructor
        · intro results h2
          injection h2 with h3
          subst h3
          show ((update_comment_status db rc.raw_comment_id .processing).processed_comments
            ++ results0.map (fun r => (⟨job_id, r⟩ : StoredProcessedComment))).length = _
          rw [List.length_append, List.length_map]
          rfl
        · intro h2
          cases h2
      | false =>
        rw [process_single_eq_save_fail env db rc job_id results0 hpc hemp hcommit]
        constructor
        · intro results h2
          cases h2
        · intro _
          rfl

/-- Terminal state of `process_single_comment` for a comment that exists in
the store: exactly `COMPLETED` (with at least one new row for it, namely
all accepted results), `SKIPPED` (no new rows), or `FAILED` (no new rows) —
never `PROCESSING`. -/
theorem process_single_status (env : ProcessingEnv) (db : ProcessingDB)
    (rc : RawCommentRow) (job_id : Option Nat)
    (hsome : (statusOf db rc.raw_comment_id).isSome = true) :
    (statusOf (process_single_comment env db rc job_id).1 rc.raw_comment_id
        = some .completed
      ∧ resultRowsFor db rc.raw_comment_id + 1
          ≤ resultRowsFor (process_single_comment env db rc job_id).1 rc.raw_comment_id)
    ∨ (statusOf (process_single_comment env db rc job_id).1 rc.raw_comment_id
        = some .skipped
      ∧ resultRowsFor (process_single_comment env db rc job_id).1 rc.raw_comment_id
          = resultRowsFor db rc.raw_comment_id)
    ∨ (statusOf (process_single_comment env db rc job_id).1 rc.raw_comment_id
        = some .failed
      ∧ resultRowsFor (process_single_comment env db rc job_id).1 rc.raw_comment_id
          = resultRowsFor db rc.raw_comment_id) := by
  have hsome1 : (statusOf (update_comment_status db rc.raw_comment_id .processing)
      rc.raw_comment_id).isSome = true := by
    rw [statusOf_update_isSome]
    exact hsome
  cases hpc : process_comment_chunks env.semantic rc.raw_comment_id rc.comment_content with
  | error e =>
    cases e
    rw [process_single_eq_error env db rc job_id hpc]
    refine Or.inr (Or.inr ⟨?_, rfl⟩)
    exact statusOf_update_self _ rc.raw_comment_id .failed hsome1
  | ok results0 =>
    by_cases hemp : results0.isEmpty = true
    · have h0 : results0 = [] := List.isEmpty_iff.mp hemp
      subst h0
      rw [process_single_eq_skip env db rc job_id hpc]
      refine Or.inr (Or.inl ⟨?_, rfl⟩)
      exact statusOf_update_self _ rc.raw_comment_id .skipped hsome1
    · cases hcommit : env.save_commit_ok results0 with
      | true =>
        rw [process_single_eq_completed env db rc job_id results0 hpc hemp hcommit]
        have hids : ∀ r ∈ results0.map
            (fun r => (⟨job_id, r⟩ : StoredProcessedComment)),
            r.result.raw_comment_id = rc.raw_comment_id := by
          intro r hr
          rw [List.mem_map] at hr
          obtain ⟨r0, hr0, rfl⟩ := hr
          exact process_comment_chunks_ids env.semantic rc.raw_comment_id
            rc.comment_content results0 hpc r0 hr0
        have happ := resultRowsFor_append
          (update_comment_status db rc.raw_comment_id .processing)
          (results0.map (fun r => ⟨job_id, r⟩)) rc.raw_comment_id hids
          rc.raw_comment_id
        refine Or.inl ⟨?_, ?_⟩
        · apply statusOf_update_self
          rw [show statusOf { update_comment_status db rc.raw_comment_id
              ProcessingStatus.processing with
              processed_comments :=
                (update_comment_status db rc.raw_comment_id
                  ProcessingStatus.processing).processed_comments
                  ++ results0.map (fun r => ⟨job_id, r⟩) } rc.raw_comment_id
            = statusOf (update_comment_status db rc.raw_comment_id
                ProcessingStatus.processing) rc.raw_comment_id from rfl]
          exact hsome1
        · rw [resultRowsFor_update]
          rw [show resultRowsFor { update_comment_status db rc.raw_comment_id
              ProcessingStatus.processing with
              processed_comments :=
                (update_comment_status db rc.raw_comment_id
                  ProcessingStatus.processing).processed_comments
                  ++ results0.map (fun r => ⟨job_id, r⟩) } rc.raw_comment_id
            = resultRowsFor (update_comment_status db rc.raw_comment_id
                ProcessingStatus.processing) rc.raw_comment_id
              + (if rc.raw_comment_id = rc.raw_comment_id then
                  (results0.map (fun r => (⟨job_id, r⟩ : StoredProcessedComment))).length
                else 0) from happ]
          rw [if_pos rfl, resultRowsFor_update, List.length_map]
          have hpos : 0 < results0.length := by
            cases results0 with
            | nil => exact absurd rfl hemp
            | cons a l => exact Nat.succ_pos _
          omega
      | false =>
        rw [process_single_eq_save_fail env db rc job_id results0 hpc hemp hcommit]
        refine Or.inr (Or.inr ⟨?_, rfl⟩)
        exact statusOf_update_self _ rc.raw_comment_id .failed hsome1

/-- Frame of `process_single_comment`: which statuses exist is preserved
at every key, and both the status and the row count of every other comment
are untouched. -/
theorem process_single_frame (env : ProcessingEnv) (db : ProcessingDB)
    (rc : RawCommentRow) (job_id : Option Nat) :
    (∀ j, (statusOf (process_single_comment env db rc job_id).1 j).isSome
        = (statusOf db j).isSome)
    ∧ ∀ i, ¬ i = rc.raw_comment_id →
        statusOf (process_single_comment env db rc job_id).1 i = statusOf db i
        ∧ resultRowsFor (process_single_comment env db rc job_id).1 i
            = resultRowsFor db i := by
  cases hpc : process_comment_chunks env.semantic rc.raw_comment_id rc.comment_content with
  | error e =>
    cases e
    rw [process_single_eq_error env db rc job_id hpc]
    constructor
    · intro j
      rw [statusOf_update_isSome, statusOf_update_isSome]
    · intro i hi
      rw [statusOf_update_ne _ _ _ _ hi, statusOf_update_ne _ _ _ _ hi]
      exact ⟨rfl, rfl⟩
  | ok results0 =>
    by_cases hemp : results0.isEmpty = true
    · have h0 : results0 = [] := List.isEmpty_iff.mp hemp
      subst h0
      rw [process_single_eq_skip env db rc job_id hpc]
      constructor
      · intro j
        rw [statusOf_update_isSome, statusOf_update_isSome]
      · intro i hi
        rw [statusOf_update_ne _ _ _ _ hi, statusOf_update_ne _ _ _ _ hi]
        exact ⟨rfl, rfl⟩
    · cases hcommit : env.save_commit_ok results0 with
      | true =>
        rw [process_single_eq_completed env db rc job_id results0 hpc hemp hcommit]
        have hids : ∀ r ∈ results0.map
            (fun r => (⟨job_id, r⟩ : StoredProcessedComment)),
            r.result.raw_comment_id = rc.raw_comment_id := by
          intro r hr
          rw [List.mem_map] at hr
          obtain ⟨r0, hr0, rfl⟩ := hr
          exact process_comment_chunks_ids env.semantic rc.raw_comment_id
            rc.comment_content results0 hpc r0 hr0
        constructor
        · intro j
          rw [statusOf_update_isSome]
          rw [show statusOf { update_comment_status db rc.raw_comment_id
              ProcessingStatus.processing with
              processed_comments :=
                (update_comment_status db rc.raw_comment_id
                  ProcessingStatus.processing).processed_comments
                  ++ results0.map (fun r => ⟨job_id, r⟩) } j
            = statusOf (update_comment_status db rc.raw_comment_id
                ProcessingStatus.processing) j from rfl]
          rw [statusOf_update_isSome]
        · intro i hi
          constructor
          · rw [statusOf_update_ne _ _ _ _ hi]
            rw [show statusOf { update_comment_status db rc.raw_comment_id
                ProcessingStatus.processing with
                processed_comments :=
                  (update_comment_status db rc.raw_comment_id
                    ProcessingStatus.processing).processed_comments
                    ++ results0.map (fun r => ⟨job_id, r⟩) } i
              = statusOf (update_comment_status db rc.raw_comment_id
                  ProcessingStatus.processing) i from rfl]
            rw [statusOf_update_ne _ _ _ _ hi]
          · rw [resultRowsFor_update]
            have happ := resultRowsFor_append
              (update_comment_status db rc.raw_comment_id .processing)
              (results0.map (fun r => ⟨job_id, r⟩)) rc.raw_comment_id hids i
            rw [happ, if_neg hi, resultRowsFor_update, Nat.add_zero]
      | false =>
        rw [process_single_eq_save_fail env db rc job_id results0 hpc hemp hcommit]
        constructor
        · intro j
          rw [statusOf_update_isSome, statusOf_update_isSome]
        · intro i hi
          rw [statusOf_update_ne _ _ _ _ hi, statusOf_update_ne _ _ _ _ hi]
          exact ⟨rfl, rfl⟩

/-- Batch step for a comment that processed with zero accepted chunks. -/
theorem processBatchGo_cons_ok_empty (env : ProcessingEnv) (job_id : Option Nat)
    (c : RawCommentRow) (cs : List RawCommentRow) (db : ProcessingDB)
    (p f s t : Nat) (db1 : ProcessingDB)
    (h : process_single_comment env db c job_id = (db1, .ok [])) :
    processBatchGo env job_id (c :: cs) db (p, f, s, t)
      = processBatchGo env job_id cs db1 (p, f, s + 1, t) := by
  simp only [processBatchGo]
  rw [h]
  rfl

/-- Batch step for a comment that processed with accepted chunks. -/
theorem processBatchGo_cons_ok_ne (env : ProcessingEnv) (job_id : Option Nat)
    (c : RawCommentRow) (cs : List RawCommentRow) (db : ProcessingDB)
    (p f s t : Nat) (db1 : ProcessingDB) (results : List ProcessingResult)
    (h : process_single_comment env db c job_id = (db1, .ok results))
    (hne : ¬ results.isEmpty = true) :
    processBatchGo env job_id (c :: cs) db (p, f, s, t)
      = processBatchGo env job_id cs db1 (p + 1, f, s, t + results.length) := by
  simp only [processBatchGo]
  rw [h]
  show (if results.isEmpty = true then
      processBatchGo env job_id cs db1 (p, f, s + 1, t)
    else processBatchGo env job_id cs db1 (p + 1, f, s, t + results.length)) = _
  rw [if_neg hne]

/-- Batch step for a comment whose processing raised. -/
theorem processBatchGo_cons_error (env : ProcessingEnv) (job_id : Option Nat)
    (c : RawCommentRow) (cs : List RawCommentRow) (db : ProcessingDB)
    (p f s t : Nat) (db1 : ProcessingDB)
    (h : process_single_comment env db c job_id = (db1, .error ())) :
    processBatchGo env job_id (c :: cs) db (p, f, s, t)
      = processBatchGo env job_id cs db1 (p, f + 1, s, t) := by
  simp only [processBatchGo]
  rw [h]

/-- Counter bookkeeping of the batch loop: each comment increments exactly
one of processed/failed/skipped, and the processed-comment rows grow by
exactly the running `total_results`. -/
theorem processBatchGo_counts (env : ProcessingEnv) (job_id : Option Nat)
    (todo : List RawCommentRow) :
    ∀ (db : ProcessingDB) (p f s t : Nat),
      ((processBatchGo env job_id todo db (p, f, s, t)).2.1
        + (processBatchGo env job_id todo db (p, f, s, t)).2.2.1
        + (processBatchGo env job_id todo db (p, f, s, t)).2.2.2.1
        = p + f + s + todo.length)
      ∧ ((processBatchGo env job_id todo db (p, f, s, t)).1.processed_comments.length
            + t
          = db.processed_comments.length
            + (processBatchGo env job_id todo db (p, f, s, t)).2.2.2.2) := by
  induction todo with
  | nil =>
    intro db p f s t
    exact ⟨rfl, rfl⟩
  | cons c cs ih =>
    intro db p f s t
    have hrows := process_single_rows env db c job_id
    rcases hps : process_single_comment env db c job_id with ⟨db1, res⟩
    rw [hps] at hrows
    cases res with
    | error e =>
      cases e
      rw [processBatchGo_cons_error env job_id c cs db p f s t db1 hps]
      obtain ⟨ih1, ih2⟩ := ih db1 p (f + 1) s t
      have hr : db1.processed_comments.length = db.processed_comments.length :=
        hrows.2 rfl
      rw [List.length_cons]
      exact ⟨by omega, by omega⟩
    | ok results =>
      by_cases hemp : results.isEmpty = true
      · have h0 : results = [] := List.isEmpty_iff.mp hemp
        subst h0
        rw [processBatchGo_cons_ok_empty env job_id c cs db p f s t db1 hps]
        obtain ⟨ih1, ih2⟩ := ih db1 p f (s + 1) t
        have hr : db1.processed_comments.length = db.processed_comments.length := by
          have h2 := hrows.1 [] rfl
          simpa using h2
        rw [List.length_cons]
        exact ⟨by omega, by omega⟩
      · rw [processBatchGo_cons_ok_ne env job_id c cs db p f s t db1 results hps hemp]
        obtain ⟨ih1, ih2⟩ := ih db1 (p + 1) f s (t + results.length)
        have hr : db1.processed_comments.length
            = db.processed_comments.length + results.length :=
          hrows.1 results rfl
        rw [List.length_cons]
        exact ⟨by omega, by omega⟩

/-- Per-comment outcome of the batch loop: when the comments to process
exist in the store and have pairwise distinct ids, every one of them ends
in exactly `COMPLETED` (with its rows added), `SKIPPED`, or `FAILED` (no
rows), statuses keep existing, and untouched comments keep their status
and rows. -/
theorem processBatchGo_status (env : ProcessingEnv) (job_id : Option Nat)
    (todo : List RawCommentRow) :
    ∀ (db : ProcessingDB) (p f s t : Nat),
      (todo.map (·.raw_comment_id)).Nodup →
      (∀ d ∈ todo, (statusOf db d.raw_comment_id).isSome = true) →
      (∀ c ∈ todo,
        (statusOf (processBatchGo env job_id todo db (p, f, s, t)).1 c.raw_comment_id
            = some .completed
          ∧ resultRowsFor db c.raw_comment_id + 1
              ≤ resultRowsFor (processBatchGo env job_id todo db (p, f, s, t)).1
                  c.raw_comment_id)
        ∨ (statusOf (processBatchGo env job_id todo db (p, f, s, t)).1 c.raw_comment_id
            = some .skipped
          ∧ resultRowsFor (processBatchGo env job_id todo db (p, f, s, t)).1
              c.raw_comment_id = resultRowsFor db c.raw_comment_id)
        ∨ (statusOf (processBatchGo env job_id todo db (p, f, s, t)).1 c.raw_comment_id
            = some .failed
          ∧ resultRowsFor (processBatchGo env job_id todo db (p, f, s, t)).1
              c.raw_comment_id = resultRowsFor db c.raw_comment_id))
      ∧ (∀ j, (statusOf (processBatchGo env job_id todo db (p, f, s, t)).1 j).isSome
          = (statusOf db j).isSome)
      ∧ (∀ i, (∀ d ∈ todo, ¬ i = d.raw_comment_id) →
          statusOf (processBatchGo env job_id todo db (p, f, s, t)).1 i = statusOf db i
          ∧ resultRowsFor (processBatchGo env job_id todo db (p, f, s, t)).1 i
              = resultRowsFor db i) := by
  induction todo with
  | nil =>
    intro db p f s t _ _
    refine ⟨?_, fun j => rfl, fun i _ => ⟨rfl, rfl⟩⟩
    intro c hc
    cases hc
  | cons c cs ih =>
    intro db p f s t hnodup hsome
    rw [List.map_cons, List.nodup_cons] at hnodup
    obtain ⟨hchead, hndtail⟩ := hnodup
    have hsingle := process_single_status env db c job_id
      (hsome c (List.mem_cons_self c cs))
    have hframe := process_single_frame env db c job_id
    rcases hps : process_single_comment env db c job_id with ⟨db1, res⟩
    rw [hps] at hsingle hframe
    have hsome1 : ∀ d ∈ cs, (statusOf db1 d.raw_comment_id).isSome = true := by
      intro d hd
      rw [hframe.1 d.raw_comment_id]
      exact hsome d (List.mem_cons_of_mem c hd)
    have hstep : ∃ counters, processBatchGo env job_id (c :: cs) db (p, f, s, t)
        = processBatchGo env job_id cs db1 counters := by
      cases res with
      | error e =>
        cases e
        exact ⟨_, processBatchGo_cons_error env job_id c cs db p f s t db1 hps⟩
      | ok results =>
        by_cases hemp : results.isEmpty = true
        · have h0 : results = [] := List.isEmpty_iff.mp hemp
          subst h0
          exact ⟨_, processBatchGo_cons_ok_empty env job_id c cs db p f s t db1 hps⟩
        · exact ⟨_, processBatchGo_cons_ok_ne env job_id c cs db p f s t db1
            results hps hemp⟩
    obtain ⟨counters, hstep⟩ := hstep
    rw [hstep]
    obtain ⟨counters1, counters2⟩ := counters
    obtain ⟨counters2a, counters2b⟩ := counters2
    obtain ⟨counters3, counters4⟩ := counters2b
    obtain ⟨ihA, ihB, ihC⟩ := ih db1 counters1 counters2a counters3 counters4
      hndtail hsome1
    refine ⟨?_, ?_, ?_⟩
    · intro c' hc'
      rw [List.mem_cons] at hc'
      rcases hc' with rfl | hc'
      · have hrest := ihC c'.raw_comment_id (by
          intro d hd
          intro hcontra
          apply hchead
          rw [hcontra]
          exact List.mem_map_of_mem _ hd)
        rcases hsingle with h1 | h1 | h1
        · exact Or.inl ⟨hrest.1.symm ▸ h1.1, hrest.2.symm ▸ h1.2⟩
        · exact Or.inr (Or.inl ⟨hrest.1.symm ▸ h1.1, hrest.2.symm ▸ h1.2⟩)
        · exact Or.inr (Or.inr ⟨hrest.1.symm ▸ h1.1, hrest.2.symm ▸ h1.2⟩)
      · have hne : ¬ c'.raw_comment_id = c.raw_comment_id := by
          intro hcontra
          apply hchead
          rw [← hcontra]
          exact List.mem_map_of_mem _ hc'
        have hbase := (hframe.2 c'.raw_comment_id hne).2
        rcases ihA c' hc' with h1 | h1 | h1
        · exact Or.inl ⟨h1.1, by rw [← hbase]; exact h1.2⟩
        · exact Or.inr (Or.inl ⟨h1.1, by rw [h1.2, hbase]⟩)
        · exact Or.inr (Or.inr ⟨h1.1, by rw [h1.2, hbase]⟩)
    · intro j
      rw [ihB j, hframe.1 j]
    · intro i hi
      have hic : ¬ i = c.raw_comment_id := hi c (List.mem_cons_self c cs)
      have h1 := ihC i (fun d hd => hi d (List.mem_cons_of_mem c hd))
      have h2 := hframe.2 i hic
      exact ⟨h1.1.trans h2.1, h1.2.trans h2.2⟩

/-- `process_batch_comments` with its local bindings flattened. -/
theorem process_batch_comments_eq (env : ProcessingEnv) (db : ProcessingDB)
    (limit : Nat) (job_id : Option Nat) :
    process_batch_comments env db limit job_id
      = if (get_pending_comments db limit).isEmpty = true then
          (db, ⟨0, 0, 0, 0, 0⟩)
        else
          ((processBatchGo env job_id (get_pending_comments db limit) db
              (0, 0, 0, 0)).1,
           ⟨(get_pending_comments db limit).length,
            (processBatchGo env job_id (get_pending_comments db limit) db
              (0, 0, 0, 0)).2.1,
            (processBatchGo env job_id (get_pending_comments db limit) db
              (0, 0, 0, 0)).2.2.1,
            (processBatchGo env job_id (get_pending_comments db limit) db
              (0, 0, 0, 0)).2.2.2.1,
            (processBatchGo env job_id (get_pending_comments db limit) db
              (0, 0, 0, 0)).2.2.2.2⟩) := rfl

/-- The pending selection is a sublist of the stored comments. -/
theorem get_pending_sublist (db : ProcessingDB) (limit : Nat) :
    (get_pending_comments db limit).Sublist db.comments :=
  (List.take_sublist _ _).trans (List.filter_sublist _)

/-- C10: the statistics returned by one `process_batch_comments` run
partition the batch (`processed + failed + skipped = total`), the batch
never exceeds the requested limit and consists exactly of the comments
currently in `NEW` (up to the limit), and `total_results` equals the number
of `ProcessedComment` rows written by the run — i.e. the accepted-chunk
result counts of the processed comments. -/
theorem process_batch_statistics (env : ProcessingEnv) (db : ProcessingDB)
    (limit : Nat) (job_id : Option Nat) :
    ((process_batch_comments env db limit job_id).2.processed_count
      + (process_batch_comments env db limit job_id).2.failed_count
      + (process_batch_comments env db limit job_id).2.skipped_count
      = (process_batch_comments env db limit job_id).2.total_comments)
    ∧ (process_batch_comments env db limit job_id).2.total_comments ≤ limit
    ∧ (process_batch_comments env db limit job_id).2.total_comments
        = min limit ((db.comments.filter
            (fun r => r.processing_status = ProcessingStatus.new)).length)
    ∧ (process_batch_comments env db limit job_id).1.processed_comments.length
        = db.processed_comments.length
          + (process_batch_comments env db limit job_id).2.total_results := by
  have hplen : (get_pending_comments db limit).length
      = min limit ((db.comments.filter
          (fun r => r.processing_status = ProcessingStatus.new)).length) := by
    unfold get_pending_comments
    rw [List.length_take]
  by_cases hemp : (get_pending_comments db limit).isEmpty = true
  · have heq : process_batch_comments env db limit job_id = (db, ⟨0, 0, 0, 0, 0⟩) := by
      rw [process_batch_comments_eq, if_pos hemp]
    have hlen0 : (get_pending_comments db limit).length = 0 := by
      rw [List.isEmpty_iff.mp hemp]
      rfl
    rw [heq]
    refine ⟨rfl, Nat.zero_le _, ?_, rfl⟩
    show (0 : Nat) = min limit _
    omega
  · have heq := process_batch_comments_eq env db limit job_id
    rw [if_neg hemp] at heq
    obtain ⟨h1, h2⟩ := processBatchGo_counts env job_id
      (get_pending_comments db limit) db 0 0 0 0
    rw [heq]
    refine ⟨?_, ?_, ?_, ?_⟩
    · show (processBatchGo env job_id (get_pending_comments db limit) db
          (0, 0, 0, 0)).2.1
        + (processBatchGo env job_id (get_pending_comments db limit) db
          (0, 0, 0, 0)).2.2.1
        + (processBatchGo env job_id (get_pending_comments db limit) db
          (0, 0, 0, 0)).2.2.2.1
        = (get_pending_comments db limit).length
      omega
    · show (get_pending_comments db limit).length ≤ limit
      omega
    · exact hplen
    · show (processBatchGo env job_id (get_pending_comments db limit) db
          (0, 0, 0, 0)).1.processed_comments.length
        = db.processed_comments.length
          + (processBatchGo env job_id (get_pending_comments db limit) db
              (0, 0, 0, 0)).2.2.2.2
      omega

/-- C1: every comment selected by one `process_batch_comments` pass (it
started in `NEW`, given primary-key-unique comment ids) ends in exactly one
of `COMPLETED` (at least one `ProcessedComment` row written for it),
`SKIPPED` (no rows written for it), or `FAILED` (no rows written for it); it
is never left in `PROCESSING`, and this holds for every selected comment
regardless of other comments' failures — one failure never aborts the
batch. -/
theorem process_batch_state_machine (env : ProcessingEnv) (db : ProcessingDB)
    (limit : Nat) (job_id : Option Nat) (c : RawCommentRow)
    (hnodup : (db.comments.map (·.raw_comment_id)).Nodup)
    (hc : c ∈ get_pending_comments db limit) :
    (statusOf (process_batch_comments env db limit job_id).1 c.raw_comment_id
        = some .completed
      ∨ statusOf (process_batch_comments env db limit job_id).1 c.raw_comment_id
        = some .skipped
      ∨ statusOf (process_batch_comments env db limit job_id).1 c.raw_comment_id
        = some .failed)
    ∧ ¬ statusOf (process_batch_comments env db limit job_id).1 c.raw_comment_id
        = some .processing
    ∧ (statusOf (process_batch_comments env db limit job_id).1 c.raw_comment_id
        = some .completed →
        resultRowsFor db c.raw_comment_id + 1
          ≤ resultRowsFor (process_batch_comments env db limit job_id).1
              c.raw_comment_id)
    ∧ ((statusOf (process_batch_comments env db limit job_id).1 c.raw_comment_id
          = some .skipped
        ∨ statusOf (process_batch_comments env db limit job_id).1 c.raw_comment_id
          = some .failed) →
        resultRowsFor (process_batch_comments env db limit job_id).1
            c.raw_comment_id
          = resultRowsFor db c.raw_comment_id) := by
  have hemp : ¬ (get_pending_comments db limit).isEmpty = true := by
    rw [List.isEmpty_eq_false_iff_exists_mem.mpr ⟨c, hc⟩]
    exact Bool.false_ne_true
  have heq := process_batch_comments_eq env db limit job_id
  rw [if_neg hemp] at heq
  have hsub := get_pending_sublist db limit
  have hnodup' : ((get_pending_comments db limit).map (·.raw_comment_id)).Nodup :=
    List.Nodup.sublist (List.Sublist.map _ hsub) hnodup
  have hsome : ∀ d ∈ get_pending_comments db limit,
      (statusOf db d.raw_comment_id).isSome = true :=
    fun d hd => statusOf_isSome_of_mem db d (hsub.subset hd)
  obtain ⟨hA, hB, hC⟩ := processBatchGo_status env job_id
    (get_pending_comments db limit) db 0 0 0 0 hnodup' hsome
  have htri := hA c hc
  rw [heq]
  refine ⟨?_, ?_, ?_, ?_⟩
  · rcases htri with h | h | h
    · exact Or.inl h.1
    · exact Or.inr (Or.inl h.1)
    · exact Or.inr (Or.inr h.1)
  · rcases htri with h | h | h <;>
      · intro hcontra
        rw [h.1] at hcontra
        simp at hcontra
  · intro hcomp
    rcases htri with h | h | h
    · exact h.2
    · rw [h.1] at hcomp
      simp at hcomp
    · rw [h.1] at hcomp
      simp at hcomp
  · intro hor
    rcases htri with h | h | h
    · rcases hor with h' | h' <;>
        · rw [h.1] at h'
          simp at h'
    · exact h.2
    · exact h.2

/-- C1 (witness): on the concrete store, comment 1 is selected, and after
the batch it is in exactly one of the three terminal states with the row
accounting of the theorem; evaluation shows it completes. -/
theorem process_batch_state_machine_witness :
    (testProcessingDB.comments.map (·.raw_comment_id)).Nodup
    ∧ testComment1 ∈ get_pending_comments testProcessingDB 10
    ∧ ((statusOf (process_batch_comments testProcessingEnv testProcessingDB 10
          (some 9)).1 testComment1.raw_comment_id = some .completed
        ∨ statusOf (process_batch_comments testProcessingEnv testProcessingDB 10
          (some 9)).1 testComment1.raw_comment_id = some .skipped
        ∨ statusOf (process_batch_comments testProcessingEnv testProcessingDB 10
          (some 9)).1 testComment1.raw_comment_id = some .failed)
      ∧ ¬ statusOf (process_batch_comments testProcessingEnv testProcessingDB 10
          (some 9)).1 testComment1.raw_comment_id = some .processing
      ∧ (statusOf (process_batch_comments testProcessingEnv testProcessingDB 10
          (some 9)).1 testComment1.raw_comment_id = some .completed →
          resultRowsFor testProcessingDB testComment1.raw_comment_id + 1
            ≤ resultRowsFor (process_batch_comments testProcessingEnv
                testProcessingDB 10 (some 9)).1 testComment1.raw_comment_id)
      ∧ ((statusOf (process_batch_comments testProcessingEnv testProcessingDB 10
            (some 9)).1 testComment1.raw_comment_id = some .skipped
          ∨ statusOf (process_batch_comments testProcessingEnv testProcessingDB 10
            (some 9)).1 testComment1.raw_comment_id = some .failed) →
          resultRowsFor (process_batch_comments testProcessingEnv
              testProcessingDB 10 (some 9)).1 testComment1.raw_comment_id
            = resultRowsFor testProcessingDB testComment1.raw_comment_id)) :=
  ⟨by decide, by decide,
   process_batch_state_machine testProcessingEnv testProcessingDB 10 (some 9)
     testComment1 (by decide) (by decide)⟩
